import Mathlib

/-!
Verification of the llm-workspace backend core: the versioned conversation
store (`backend/internal/state/store.go`), the message-inclusion filter and
stream orchestration of `backend/main.go` (`/api/chat/stream`), and the
context-budget estimator (`backend/context_limits.go`).

Time values (`time.Time`) are modelled as `Nat` timestamps passed in as a
`now` parameter; generated ids (`newID`) are passed in as parameters.
Persistence (`persistLocked`) and folder bookkeeping (`touchFolderLocked`)
do not touch chat messages and are omitted from the state transition.
-/

namespace LlmWorkspace

/-- `state.MessageVersion` from `store.go`. -/
structure MessageVersion where
  content : String
  provider : String
  model : String
  targetID : String
  createdAt : Nat
deriving Repr, DecidableEq

/-- `state.Message` from `store.go`.  `HistoryIndex` is a Go `int`, hence `Int`. -/
structure Message where
  id : String
  role : String
  content : String
  provider : String
  model : String
  targetID : String
  inclusion : String
  scopeID : String
  history : List MessageVersion
  historyIndex : Int
  createdAt : Nat
deriving Repr, DecidableEq

/-- `state.Chat` from `store.go`. -/
structure Chat where
  id : String
  folderID : String
  title : String
  messages : List Message
  createdAt : Nat
  updatedAt : Nat
deriving Repr, DecidableEq

/-- Go `strings.TrimSpace` (ASCII whitespace, which is all the data the
modelled code compares against). -/
def isSpaceChar (c : Char) : Bool := c = ' ' ∨ c = '\t' ∨ c = '\n' ∨ c = '\r'

/-- Go `strings.TrimSpace`, as an executable char-list function. -/
def trimSpace (s : String) : String :=
  String.mk (((s.toList.dropWhile isSpaceChar).reverse.dropWhile isSpaceChar).reverse)

/-- Go `strings.ToLower` on one ASCII character. -/
def lowerChar (c : Char) : Char :=
  if 'A' ≤ c ∧ c ≤ 'Z' then Char.ofNat (c.toNat + 32) else c

/-- Go `strings.ToLower`, as an executable char-list function. -/
def lowerStr (s : String) : String := String.mk (s.toList.map lowerChar)

/-- `messageIncludedForTarget` from `backend/main.go`. -/
def messageIncludedForTarget (msg : Message) (targetID : String) : Bool :=
  let inc := lowerStr (trimSpace msg.inclusion)
  if inc = "dont_include" then
    false
  else if inc = "always" then
    true
  else if inc = "model_only" then
    let scope := if trimSpace msg.scopeID = "" then trimSpace msg.targetID else trimSpace msg.scopeID
    if scope = "" then true else scope = targetID
  else
    if msg.role = "assistant" then
      let scope := trimSpace msg.targetID
      if scope = "" then false else scope = targetID
    else
      true

/-- The inclusion table as the spec words it (claim C2): classification of the
normalized inclusion value into the four spec rows. -/
def includedSpec (msg : Message) (targetID : String) : Prop :=
  let inc := lowerStr (trimSpace msg.inclusion)
  if inc = "dont_include" then
    False
  else if inc = "always" then
    True
  else if inc = "model_only" then
    let scope := if trimSpace msg.scopeID = "" then trimSpace msg.targetID else trimSpace msg.scopeID
    scope = "" ∨ scope = targetID
  else if msg.role = "assistant" then
    trimSpace msg.targetID ≠ "" ∧ trimSpace msg.targetID = targetID
  else
    True

/-- `providers.HistoryMessage`: the shape sent to adapters. -/
structure HistoryMessage where
  role : String
  content : String
deriving Repr, DecidableEq

/-- `buildTargetHistory` from `backend/main.go`: drop messages with blank
content or role, keep those passing the inclusion filter. -/
def buildTargetHistory (messages : List Message) (targetID : String) : List HistoryMessage :=
  messages.filterMap fun msg =>
    if trimSpace msg.content = "" ∨ trimSpace msg.role = "" then none
    else if messageIncludedForTarget msg targetID then some ⟨msg.role, msg.content⟩
    else none

/-- The `chars` accumulator of `estimateContextTokens` in
`backend/context_limits.go`: total content length of the target-filtered
history plus the prompt length. -/
def contextCharCount (baseHistory : List Message) (targetID prompt : String) : Nat :=
  ((buildTargetHistory baseHistory targetID).map fun m => m.content.length).sum + prompt.length

/-- `estimateContextTokens` from `backend/context_limits.go`:
`int(math.Ceil(float64(chars) / 4.0))` with the `chars <= 0` guard, the
float ceiling modelled as the exact rational ceiling. -/
def estimateContextTokens (baseHistory : List Message) (targetID prompt : String) : Nat :=
  if contextCharCount baseHistory targetID prompt ≤ 0 then 1
  else (Int.ceil ((contextCharCount baseHistory targetID prompt : ℚ) / 4)).toNat

/-- Go `math.Round`: round half away from zero (modelled exactly on ℚ). -/
def roundHalfAwayFromZero (x : ℚ) : Int :=
  if 0 ≤ x then Int.floor (x + 1/2) else -(Int.floor (-x + 1/2))

/-- One entry of the `/api/context-limits` response (`contextLimitItem`). -/
structure ContextLimitItem where
  targetID : String
  provider : String
  model : String
  maxContextTokens : Nat
  estimatedTokens : Nat
  remainingTokens : Option Int
  usedPercent : Option Int
  errMsg : Option String
deriving Repr, DecidableEq

/-- The per-target body of `resolveContextLimits` from `context_limits.go`,
after the provider fetch (whose network result is passed in as `fetched`):
record the limit or the error, always compute the estimate, and when the
known maximum is positive derive remaining tokens and used percent
(`used` clamped below at 0 as in the `if used < 0` branch). -/
def resolveContextItem (provider model : String) (fetched : Except String Nat)
    (baseHistory : List Message) (prompt : String) : ContextLimitItem :=
  let targetID := provider ++ ":" ++ model
  let est := estimateContextTokens baseHistory targetID prompt
  match fetched with
  | .error e =>
      { targetID := targetID, provider := provider, model := model,
        maxContextTokens := 0, estimatedTokens := est,
        remainingTokens := none, usedPercent := none, errMsg := some e }
  | .ok n =>
      if 0 < n then
        { targetID := targetID, provider := provider, model := model,
          maxContextTokens := n, estimatedTokens := est,
          remainingTokens := some ((n : Int) - (est : Int)),
          usedPercent :=
            some (let used := roundHalfAwayFromZero ((est : ℚ) * 100 / (n : ℚ))
                  if used < 0 then 0 else used),
          errMsg := none }
      else
        { targetID := targetID, provider := provider, model := model,
          maxContextTokens := n, estimatedTokens := est,
          remainingTokens := none, usedPercent := none, errMsg := none }

/-! ## Conversation store operations (`backend/internal/state/store.go`) -/

/-- `trimTitle` from `store.go`: truncate a prompt to 40 runes with an
ellipsis for use as a chat title. -/
def trimTitle (prompt : String) : String :=
  let p := trimSpace prompt
  if p = "" then "New Chat"
  else if 40 < p.toList.length then String.mk (p.toList.take 40) ++ "..." else p

/-- `indexOfMessage` from `store.go` (the `-1` result is `none`). -/
def indexOfMessage (messages : List Message) (messageID : String) : Option Nat :=
  match messages with
  | [] => none
  | m :: rest =>
      if m.id = messageID then some 0
      else (indexOfMessage rest messageID).map (· + 1)

/-- First statement of `ensureMessageHistory` in `store.go`: seed an empty
history with a snapshot of the top-level fields. -/
def ensureSeeded (msg : Message) : Message :=
  if msg.history.isEmpty then
    { msg with
        history := [⟨msg.content, msg.provider, msg.model, msg.targetID, msg.createdAt⟩],
        historyIndex := 0 }
  else msg

/-- Second statement of `ensureMessageHistory`: clamp an out-of-range
`historyIndex` to the last entry. -/
def ensureClamped (msg : Message) : Message :=
  if msg.historyIndex < 0 ∨ (msg.history.length : Int) ≤ msg.historyIndex then
    { msg with historyIndex := (msg.history.length : Int) - 1 }
  else msg

/-- Final statements of `ensureMessageHistory`: mirror the current version
into the top-level fields (out-of-range indexing is unreachable after
clamping). -/
def mirrorCurrent (msg : Message) : Message :=
  match msg.history[msg.historyIndex.toNat]? with
  | some v => { msg with content := v.content, provider := v.provider, model := v.model,
                         targetID := v.targetID }
  | none => msg

/-- `ensureMessageHistory` from `store.go`: seed an empty history from the
top-level fields, clamp `historyIndex` into range, and mirror the current
version back into the top-level fields. -/
def ensureMessageHistory (msg : Message) : Message :=
  mirrorCurrent (ensureClamped (ensureSeeded msg))

/-- The store-wide `for i := range s.data.Chats` pattern: find the first chat
with the given id, apply the mutation, keep every other chat untouched
(`errors.New("chat not found")` when no chat matches). -/
def updateChatById (chats : List Chat) (chatID : String) (f : Chat → Except String Chat) :
    Except String (List Chat) :=
  match chats with
  | [] => .error "chat not found"
  | c :: rest =>
      if c.id = chatID then
        match f c with
        | .ok c2 => .ok (c2 :: rest)
        | .error e => .error e
      else
        match updateChatById rest chatID f with
        | .ok rest2 => .ok (c :: rest2)
        | .error e => .error e

/-- The inner `for j := range Messages` pattern: mutate the first message
with the given id (`errors.New("message not found")` when none matches). -/
def updateMessageById (msgs : List Message) (messageID : String)
    (f : Message → Except String Message) : Except String (List Message) :=
  match msgs with
  | [] => .error "message not found"
  | m :: rest =>
      if m.id = messageID then
        match f m with
        | .ok m2 => .ok (m2 :: rest)
        | .error e => .error e
      else
        match updateMessageById rest messageID f with
        | .ok rest2 => .ok (m :: rest2)
        | .error e => .error e

/-- First chat with the given id (the lookup loop of `GetChat`). -/
def findChat (chats : List Chat) (id : String) : Option Chat :=
  match chats with
  | [] => none
  | c :: rest => if c.id = id then some c else findChat rest id

/-- `Store.AppendUserPrompt`: append a user message with a one-entry history,
deriving the title from the prompt when this is the first message of a chat
still titled `New Chat`. -/
def appendUserPrompt (chats : List Chat) (chatID prompt newMsgID : String) (now : Nat) :
    Except String (List Chat) :=
  updateChatById chats chatID fun c =>
    let newMsg : Message :=
      { id := newMsgID, role := "user", content := prompt, provider := "", model := "",
        targetID := "", inclusion := "always", scopeID := "",
        history := [⟨prompt, "", "", "", now⟩], historyIndex := 0, createdAt := now }
    let msgs := c.messages ++ [newMsg]
    let title := if msgs.length = 1 ∧ trimSpace c.title = "New Chat" then trimTitle prompt else c.title
    .ok { c with messages := msgs, title := title, updatedAt := now }

/-- The per-output transformation of `Store.AppendAssistantMessages`:
fresh id, assistant role, defaulted inclusion and scope, one-entry history. -/
def assistantOutputMessage (out : Message) (newMsgID : String) (now : Nat) : Message :=
  let inclusion := if trimSpace out.inclusion = "" then "model_only" else out.inclusion
  let scopeID := if inclusion = "model_only" ∧ trimSpace out.scopeID = "" then out.targetID
                 else out.scopeID
  { out with
      id := newMsgID, role := "assistant", inclusion := inclusion, scopeID := scopeID,
      history := [⟨out.content, out.provider, out.model, out.targetID, now⟩],
      historyIndex := 0, createdAt := now }

/-- `Store.AppendAssistantMessages`: append one assistant message per output
with non-blank content (`newMsgID` supplies the `newID("msg")` values). -/
def appendAssistantMessages (chats : List Chat) (chatID : String) (outputs : List Message)
    (newMsgID : Nat → String) (now : Nat) : Except String (List Chat) :=
  updateChatById chats chatID fun c =>
    let appended := (outputs.enum.filterMap fun p =>
      if trimSpace p.2.content = "" then none
      else some (assistantOutputMessage p.2 (newMsgID p.1) now))
    .ok { c with messages := c.messages ++ appended, updatedAt := now }

/-- The shared shape of the message-level mutations: run a mutation on the
message list of the addressed chat and refresh `UpdatedAt`. -/
def withChatMessages (now : Nat) (g : List Message → Except String (List Message))
    (c : Chat) : Except String Chat :=
  match g c.messages with
  | .ok msgs => .ok { c with messages := msgs, updatedAt := now }
  | .error e => .error e

/-- `Store.ReplaceAssistantMessage`: require the target be an assistant
message, append the replacement as a new version on the (ensured) history,
point `historyIndex` at it, refresh `createdAt`. -/
def replaceAssistantMessage (chats : List Chat) (chatID messageID : String)
    (replacement : Message) (now : Nat) : Except String (List Chat) :=
  updateChatById chats chatID <| withChatMessages now fun msgs =>
    updateMessageById msgs messageID fun orig =>
      if orig.role ≠ "assistant" then .error "target message is not assistant"
      else
        let ensured := ensureMessageHistory orig
        let inclusion := if replacement.inclusion = "" then "model_only" else replacement.inclusion
        let scopeID := if replacement.scopeID = "" then replacement.targetID
                       else replacement.scopeID
        let history := ensured.history ++
          [⟨replacement.content, replacement.provider, replacement.model,
            replacement.targetID, now⟩]
        .ok { orig with
                role := "assistant", content := replacement.content,
                provider := replacement.provider, model := replacement.model,
                targetID := replacement.targetID, inclusion := inclusion, scopeID := scopeID,
                createdAt := now, history := history,
                historyIndex := (history.length : Int) - 1 }

/-- `Store.EditUserMessageInPlace`: reject blank content up front, require a
user message, append a new version, point `historyIndex` at it, clear the
attribution fields, and truncate the chat to end at the edited message. -/
def editUserMessageInPlace (chats : List Chat) (chatID messageID content : String) (now : Nat) :
    Except String (List Chat) :=
  let content := trimSpace content
  if content = "" then .error "content is required"
  else updateChatById chats chatID <| withChatMessages now fun msgs =>
    match indexOfMessage msgs messageID with
    | none => .error "message not found"
    | some idx =>
      match msgs[idx]? with
      | none => .error "message not found"
      | some m =>
        if m.role ≠ "user" then .error "only user messages can be edited"
        else
          let m := ensureMessageHistory m
          let history := m.history ++ [⟨content, "", "", "", now⟩]
          let m := { m with
                       history := history, historyIndex := (history.length : Int) - 1,
                       content := content, provider := "", model := "", targetID := "",
                       createdAt := now }
          .ok ((msgs.set idx m).take (idx + 1))

/-- `Store.SetMessageHistoryIndex`: bounds-checked move of `historyIndex`
with the selected version mirrored into the top-level fields (no new
version); an assistant `model_only` message re-scopes to its targetId. -/
def setMessageHistoryIndex (chats : List Chat) (chatID messageID : String) (index : Int)
    (now : Nat) : Except String (List Chat) :=
  if index < 0 then .error "invalid history index"
  else updateChatById chats chatID <| withChatMessages now fun msgs =>
    updateMessageById msgs messageID fun m0 =>
      let m := ensureMessageHistory m0
      if (m.history.length : Int) ≤ index then .error "history index out of range"
      else
        match m.history[index.toNat]? with
        | none => .error "history index out of range"
        | some v =>
          let m := { m with
                       historyIndex := index, content := v.content, provider := v.provider,
                       model := v.model, targetID := v.targetID }
          .ok (if m.inclusion = "model_only" ∧ m.role = "assistant"
               then { m with scopeID := m.targetID } else m)

/-- `normalizeInclusion` from `store.go`. -/
def normalizeInclusion (v : String) : String :=
  let n := lowerStr (trimSpace v)
  if n = "dont_include" ∨ n = "model_only" ∨ n = "always" then n else ""

/-- `Store.UpdateMessageInclusion`: set the normalized inclusion; a scope is
kept only for `model_only` (defaulting to the message targetId). -/
def updateMessageInclusion (chats : List Chat) (chatID messageID inclusion scopeID : String)
    (now : Nat) : Except String (List Chat) :=
  let inc := normalizeInclusion inclusion
  if inc = "" then .error "invalid inclusion"
  else updateChatById chats chatID <| withChatMessages now fun msgs =>
    updateMessageById msgs messageID fun m0 =>
      let m := { m0 with inclusion := inc }
      let m := if m.inclusion = "model_only" then
                 (if trimSpace scopeID ≠ "" then { m with scopeID := scopeID }
                  else { m with scopeID := m.targetID })
               else { m with scopeID := "" }
      .ok m

/-- `Store.ForkChatFromMessage`: a new chat holding a value copy of the
source messages up to and including the addressed message. -/
def forkChatFromMessage (chats : List Chat) (chatID messageID title newChatID : String)
    (now : Nat) : Except String (List Chat × Chat) :=
  match findChat chats chatID with
  | none => .error "chat not found"
  | some source =>
    match indexOfMessage source.messages messageID with
    | none => .error "message not found"
    | some msgIdx =>
      let title := if trimSpace title = "" then source.title ++ " (Fork)" else title
      let chat : Chat := { id := newChatID, folderID := source.folderID, title := trimSpace title,
                           messages := source.messages.take (msgIdx + 1),
                           createdAt := now, updatedAt := now }
      .ok (chats ++ [chat], chat)

/-- The targetId derivation inside `Store.PrepareUserRegenerate`: the message
targetId, or `lowercase(provider):model` when both are present. -/
def derivedTargetID (msg : Message) : String :=
  let t := trimSpace msg.targetID
  if t = "" ∧ trimSpace msg.provider ≠ "" ∧ trimSpace msg.model ≠ "" then
    lowerStr (trimSpace msg.provider) ++ ":" ++ trimSpace msg.model
  else t

/-- Go map assignment `m[k] = v`, on an association-list model of the map. -/
def mapSet (m : List (String × String)) (k v : String) : List (String × String) :=
  match m with
  | [] => [(k, v)]
  | p :: rest => if p.1 = k then (k, v) :: rest else p :: mapSet rest k v

/-- Go map lookup `m[k]`, on the association-list model. -/
def mapGet (m : List (String × String)) (k : String) : Option String :=
  match m with
  | [] => none
  | p :: rest => if p.1 = k then some p.2 else mapGet rest k

/-- The `replaceByTarget` accumulation loop of `Store.PrepareUserRegenerate`
over the scan window: assistant messages only, skipping those with no
derivable targetId, later entries overwriting earlier ones. -/
def replaceByTargetMap (window : List Message) : List (String × String) :=
  window.foldl (fun acc msg =>
    if msg.role ≠ "assistant" then acc
    else
      let tid := derivedTargetID msg
      if tid = "" then acc else mapSet acc tid msg.id) []

/-- `Store.PrepareUserRegenerate`: for a user message, return its content as
the prompt, the strictly earlier messages as history, and the
targetId-to-message-id replacement mapping scanned forward until the next
user message. -/
def prepareUserRegenerate (chats : List Chat) (chatID messageID : String) :
    Except String (String × List Message × List (String × String)) :=
  match findChat chats chatID with
  | none => .error "chat not found"
  | some chat =>
    match indexOfMessage chat.messages messageID with
    | none => .error "message not found"
    | some msgIdx =>
      match chat.messages[msgIdx]? with
      | none => .error "message not found"
      | some m =>
        if m.role ≠ "user" then .error "message is not user"
        else
          let window := (chat.messages.drop (msgIdx + 1)).takeWhile fun x => x.role ≠ "user"
          .ok (m.content, chat.messages.take msgIdx, replaceByTargetMap window)

/-- Claim C9, following the spec text: the id of the latest assistant reply
in the scan window whose derived targetId is the given one (later messages
take precedence). -/
def latestReplyID (window : List Message) (tid : String) : Option String :=
  match window with
  | [] => none
  | m :: rest =>
      match latestReplyID rest tid with
      | some i => some i
      | none => if m.role = "assistant" ∧ derivedTargetID m = tid then some m.id else none

/-- The message normalization of `Store.load`: default inclusion by role,
default `model_only` scope, then `ensureMessageHistory`. -/
def normalizeLoadedMessage (msg : Message) : Message :=
  let m1 := if trimSpace msg.inclusion = "" then
      { msg with inclusion := if msg.role = "assistant" then "model_only" else "always" }
    else msg
  let m2 := if m1.inclusion = "model_only" ∧ trimSpace m1.scopeID = "" then
      { m1 with scopeID := m1.targetID }
    else m1
  ensureMessageHistory m2

/-- The chat deserialization loop of `Store.load`. -/
def normalizeLoadedChats (chats : List Chat) : List Chat :=
  chats.map fun c => { c with messages := c.messages.map normalizeLoadedMessage }

/-- The C4 invariant on one message: non-empty history, in-range
`historyIndex`, and the top-level content/provider/model/targetId mirroring
`history[historyIndex]`. -/
def mirrorOK (m : Message) : Bool :=
  match m.history[m.historyIndex.toNat]? with
  | none => false
  | some v =>
      decide (0 ≤ m.historyIndex) && decide (m.content = v.content) &&
      decide (m.provider = v.provider) && decide (m.model = v.model) &&
      decide (m.targetID = v.targetID)

/-- Every message of the chat satisfies `mirrorOK`. -/
def chatOK (c : Chat) : Bool := c.messages.all mirrorOK

/-- Every message of every chat satisfies `mirrorOK`. -/
def storeOK (chats : List Chat) : Bool := chats.all chatOK

/-! ## Stream orchestration (`/api/chat/stream` in `backend/main.go`)

One worker goroutine per registered target emits `start`, the adapter's
`chunk` events, an `error` event on a non-cancellation failure, then `end`;
a target whose provider is not in the adapter registry gets a single
`error` event from the handler loop instead.  All events pass through one
shared channel; the drain loop sees some interleaving of the per-producer
sequences (each producer's own order preserved), accumulates chunk contents
per targetId, and finally writes the `done` frame.  The interleaving is
modelled by `mux`: a scheduler word picks which producer's next event is
dequeued at each step. -/

/-- `providers.Target` (the fields the orchestrator reads). -/
structure Target where
  provider : String
  model : String
deriving Repr, DecidableEq

/-- The `targetID := t.Provider + ":" + t.Model` of the worker body. -/
def Target.targetID (t : Target) : String := t.provider ++ ":" ++ t.model

/-- `providers.StreamEvent` (the `Error` field is `errText`). -/
structure StreamEvent where
  targetID : String
  provider : String
  model : String
  event : String
  content : String
  errText : String
deriving Repr, DecidableEq

/-- The `start` event a worker emits first. -/
def startEvent (t : Target) : StreamEvent := ⟨t.targetID, t.provider, t.model, "start", "", ""⟩

/-- A `chunk` event as both adapters emit it. -/
def chunkEvent (t : Target) (c : String) : StreamEvent :=
  ⟨t.targetID, t.provider, t.model, "chunk", c, ""⟩

/-- The `error` event emitted on a non-cancellation adapter failure (and by
the handler loop for an unsupported provider). -/
def errorEventOf (t : Target) (e : String) : StreamEvent :=
  ⟨t.targetID, t.provider, t.model, "error", "", e⟩

/-- The `end` event a worker always emits last. -/
def endEvent (t : Target) : StreamEvent := ⟨t.targetID, t.provider, t.model, "end", "", ""⟩

/-- The terminal `event: done` frame. -/
def doneEvent : StreamEvent := ⟨"", "", "", "done", "", ""⟩

/-- What one adapter call did: the chunk contents it emitted in order, and
the error it returned (if any, and not `context.Canceled`). -/
structure AdapterRun where
  chunks : List String
  failure : Option String
deriving Repr, DecidableEq

/-- The exact event sequence one worker goroutine feeds into the shared
channel: `start`, the adapter's chunks, an `error` on failure, then `end`. -/
def workerEvents (t : Target) (r : AdapterRun) : List StreamEvent :=
  startEvent t ::
    (r.chunks.map (chunkEvent t) ++
      ((match r.failure with | some e => [errorEventOf t e] | none => []) ++ [endEvent t]))

/-- The provider ids present in the adapter `registry` map of `main`. -/
def registry : List String := ["openrouter", "ollama"]

/-- The per-producer event sequences of one `/api/chat/stream` run: one
worker per registered target, a lone `error` event for an unregistered
provider. -/
def handlerEventLists (targets : List Target) (runs : Nat → AdapterRun) :
    List (List StreamEvent) :=
  targets.enum.map fun p =>
    if p.2.provider ∈ registry then workerEvents p.2 (runs p.1)
    else [errorEventOf p.2 "unsupported provider"]

/-- FIFO multiplexing of several producer sequences into the shared channel:
`sched` names, step by step, the producer whose next event is dequeued. -/
def mux {α : Type} (ls : List (List α)) (sched : List Nat) : Option (List α) :=
  match sched with
  | [] => if ls.all fun l => l.isEmpty then some [] else none
  | i :: rest =>
    match ls[i]? with
    | some (a :: as) => (mux (ls.set i as) rest).map fun es => a :: es
    | _ => none

/-- A complete `/api/chat/stream` event sequence: some interleaving of the
per-producer sequences, drained to exhaustion, followed by the `done`
frame. -/
def AppendRun (targets : List Target) (runs : Nat → AdapterRun) (es : List StreamEvent) : Prop :=
  ∃ sched body, mux (handlerEventLists targets runs) sched = some body ∧
    es = body ++ [doneEvent]

/-- The subsequence of events belonging to one targetId. -/
def eventsFor (es : List StreamEvent) (tid : String) : List StreamEvent :=
  es.filter fun e => e.targetID = tid

/-- `chunk* (error)? end` — the tail of a well-formed per-target trace. -/
def tailShapeOK : List String → Bool
  | ["end"] => true
  | ["error", "end"] => true
  | "chunk" :: rest => tailShapeOK rest
  | _ => false

/-- The claimed per-target event order: the target's events are exactly one
`start`, then chunks, at most one `error`, one final `end`. -/
def perTargetShape (es : List StreamEvent) (tid : String) : Bool :=
  match (eventsFor es tid).map fun e => e.event with
  | "start" :: rest => tailShapeOK rest
  | _ => false

/-- The per-target content accumulation of the drain loop: concatenation of
this target's chunk contents in arrival order. -/
def accumContent (es : List StreamEvent) (tid : String) : String :=
  String.join ((es.filter fun e => e.targetID = tid ∧ e.event = "chunk").map fun e => e.content)

/-- What `AppendAssistantMessages` persists for one target after the drain:
the accumulated content, unless it is blank (no entry in `outputs`, or
skipped by the blank-content check). -/
def committedContent (es : List StreamEvent) (tid : String) : Option String :=
  if trimSpace (accumContent es tid) = "" then none else some (accumContent es tid)

/-! ## Concrete sample data (used to instantiate the theorems) -/

/-- A well-formed stored user message. -/
def sampleUserMsg : Message :=
  { id := "m1", role := "user", content := "hi", provider := "", model := "", targetID := "",
    inclusion := "always", scopeID := "", history := [⟨"hi", "", "", "", 0⟩],
    historyIndex := 0, createdAt := 0 }

/-- A well-formed stored assistant message. -/
def sampleAsstMsg : Message :=
  { id := "m2", role := "assistant", content := "yo", provider := "ollama", model := "l3",
    targetID := "ollama:l3", inclusion := "model_only", scopeID := "ollama:l3",
    history := [⟨"yo", "ollama", "l3", "ollama:l3", 0⟩], historyIndex := 0, createdAt := 0 }

/-- A chat holding the two sample messages. -/
def sampleChat : Chat :=
  { id := "c1", folderID := "f1", title := "T", messages := [sampleUserMsg, sampleAsstMsg],
    createdAt := 0, updatedAt := 0 }

/-- A one-chat store. -/
def sampleChats : List Chat := [sampleChat]

/-- The user message after `editUserMessageInPlace _ "c1" "m1" "new" 5`. -/
def sampleEditedMsg : Message :=
  { id := "m1", role := "user", content := "new", provider := "", model := "", targetID := "",
    inclusion := "always", scopeID := "",
    history := [⟨"hi", "", "", "", 0⟩, ⟨"new", "", "", "", 5⟩], historyIndex := 1, createdAt := 5 }

/-- The sample chat after that edit (truncated at the user message). -/
def sampleEditedChat : Chat :=
  { sampleChat with messages := [sampleEditedMsg], updatedAt := 5 }

/-- A replacement payload for `replaceAssistantMessage`. -/
def sampleReplacement : Message :=
  { id := "", role := "", content := "fresh", provider := "ollama", model := "l3",
    targetID := "ollama:l3", inclusion := "", scopeID := "", history := [],
    historyIndex := 0, createdAt := 0 }

/-- The assistant message after `replaceAssistantMessage _ "c1" "m2" sampleReplacement 7`. -/
def sampleReplacedMsg : Message :=
  { id := "m2", role := "assistant", content := "fresh", provider := "ollama", model := "l3",
    targetID := "ollama:l3", inclusion := "model_only", scopeID := "ollama:l3",
    history := [⟨"yo", "ollama", "l3", "ollama:l3", 0⟩, ⟨"fresh", "ollama", "l3", "ollama:l3", 7⟩],
    historyIndex := 1, createdAt := 7 }

/-- The sample chat after that replacement. -/
def sampleReplacedChat : Chat :=
  { sampleChat with messages := [sampleUserMsg, sampleReplacedMsg], updatedAt := 7 }

/-- The fork produced by `forkChatFromMessage sampleChats "c1" "m1" "" "c9" 3`. -/
def sampleForkChat : Chat :=
  { id := "c9", folderID := "f1", title := "T (Fork)", messages := [sampleUserMsg],
    createdAt := 3, updatedAt := 3 }

/-- A chat exercising the regenerate scan: one user prompt, three assistant
replies (two for the same target, one with only provider/model attribution),
a second user prompt, and a later reply that must not be scanned. -/
def regenChat : Chat :=
  { id := "rc", folderID := "f1", title := "R",
    messages :=
      [{ id := "u1", role := "user", content := "q", provider := "", model := "",
         targetID := "", inclusion := "always", scopeID := "",
         history := [⟨"q", "", "", "", 0⟩], historyIndex := 0, createdAt := 0 },
       { id := "a1", role := "assistant", content := "r1", provider := "ollama", model := "l3",
         targetID := "ollama:l3", inclusion := "model_only", scopeID := "ollama:l3",
         history := [⟨"r1", "ollama", "l3", "ollama:l3", 0⟩], historyIndex := 0, createdAt := 0 },
       { id := "a2", role := "assistant", content := "r2", provider := "ollama", model := "l3",
         targetID := "ollama:l3", inclusion := "model_only", scopeID := "ollama:l3",
         history := [⟨"r2", "ollama", "l3", "ollama:l3", 0⟩], historyIndex := 0, createdAt := 0 },
       { id := "a3", role := "assistant", content := "r3", provider := " OpenRouter ",
         model := "gpt", targetID := "", inclusion := "model_only", scopeID := "",
         history := [⟨"r3", " OpenRouter ", "gpt", "", 0⟩], historyIndex := 0, createdAt := 0 },
       { id := "u2", role := "user", content := "q2", provider := "", model := "",
         targetID := "", inclusion := "always", scopeID := "",
         history := [⟨"q2", "", "", "", 0⟩], historyIndex := 0, createdAt := 0 },
       { id := "a4", role := "assistant", content := "r4", provider := "ollama", model := "l3",
         targetID := "ollama:l3", inclusion := "model_only", scopeID := "ollama:l3",
         history := [⟨"r4", "ollama", "l3", "ollama:l3", 0⟩], historyIndex := 0, createdAt := 0 }],
    createdAt := 0, updatedAt := 0 }

/-- An unregistered-provider target. -/
def fooTarget : Target := ⟨"foo", "m"⟩

/-- A registered (ollama) target. -/
def ollamaTarget : Target := ⟨"ollama", "l3"⟩

/-- An adapter run that failed immediately with no partial content. -/
def failedRun : AdapterRun := ⟨[], some "boom"⟩

/-- An adapter run that streamed two chunks and finished normally. -/
def okRun : AdapterRun := ⟨["a", "b"], none⟩

/-- Queue content of a run over `[ollamaTarget, fooTarget]` where the ollama
worker streams `"a"`, `"b"` and the foo target is rejected. -/
def mixedRunBody : List StreamEvent :=
  [startEvent ollamaTarget, errorEventOf fooTarget "unsupported provider",
   chunkEvent ollamaTarget "a", chunkEvent ollamaTarget "b", endEvent ollamaTarget]

/-- Queue content of a run over `[ollamaTarget]` whose adapter fails with
`boom` before any chunk. -/
def failedRunBody : List StreamEvent :=
  [startEvent ollamaTarget, errorEventOf ollamaTarget "boom", endEvent ollamaTarget]

/-! ## Theorems -/

/-! ### Store helper lemmas -/

theorem indexOfMessage_lt {msgs : List Message} {mid : String} {i : Nat}
    (h : indexOfMessage msgs mid = some i) : i < msgs.length := by
  induction msgs generalizing i with
  | nil => simp [indexOfMessage] at h
  | cons m rest ih =>
    unfold indexOfMessage at h
    by_cases hm : m.id = mid
    · rw [if_pos hm] at h
      injection h with h
      simp only [List.length_cons]
      omega
    · rw [if_neg hm] at h
      rw [Option.map_eq_some'] at h
      obtain ⟨k, hrec, hk⟩ := h
      have := ih hrec
      simp only [List.length_cons]
      omega

theorem indexOfMessage_get {msgs : List Message} {mid : String} {i : Nat}
    (h : indexOfMessage msgs mid = some i) : ∃ m, msgs[i]? = some m ∧ m.id = mid := by
  induction msgs generalizing i with
  | nil => simp [indexOfMessage] at h
  | cons m rest ih =>
    unfold indexOfMessage at h
    by_cases hm : m.id = mid
    · rw [if_pos hm] at h
      injection h with h
      exact ⟨m, by simp [← h], hm⟩
    · rw [if_neg hm] at h
      rw [Option.map_eq_some'] at h
      obtain ⟨k, hrec, hk⟩ := h
      obtain ⟨m2, hm2, hiid⟩ := ih hrec
      exact ⟨m2, by simp [← hk, hm2], hiid⟩

theorem ensureSeeded_history_ne_nil (m : Message) : (ensureSeeded m).history ≠ [] := by
  unfold ensureSeeded
  by_cases h : m.history.isEmpty
  · simp [h]
  · rw [if_neg (by simp [h])]
    intro hnil
    exact h (by simp [hnil])

theorem ensureClamped_history (m : Message) : (ensureClamped m).history = m.history := by
  unfold ensureClamped
  split <;> rfl

theorem ensureClamped_index (m : Message) (h : m.history ≠ []) :
    0 ≤ (ensureClamped m).historyIndex ∧
      (ensureClamped m).historyIndex < (m.history.length : Int) := by
  have hlen : 0 < m.history.length := List.length_pos.mpr h
  unfold ensureClamped
  split
  · constructor <;> simp <;> omega
  · next hcond =>
    push_neg at hcond
    exact ⟨hcond.1, by omega⟩

theorem mirrorCurrent_mirrorOK (m : Message) (h0 : 0 ≤ m.historyIndex)
    (h1 : m.historyIndex < (m.history.length : Int)) :
    mirrorOK (mirrorCurrent m) = true := by
  have hlt : m.historyIndex.toNat < m.history.length := by omega
  have hv : m.history[m.historyIndex.toNat]? = some m.history[m.historyIndex.toNat] :=
    List.getElem?_eq_getElem hlt
  unfold mirrorCurrent
  rw [hv]
  unfold mirrorOK
  simp [hv, h0]

theorem ensure_mirrorOK (m : Message) : mirrorOK (ensureMessageHistory m) = true := by
  unfold ensureMessageHistory
  have hne := ensureSeeded_history_ne_nil m
  obtain ⟨hge, hlt⟩ := ensureClamped_index (ensureSeeded m) hne
  apply mirrorCurrent_mirrorOK _ hge
  rw [ensureClamped_history]
  exact hlt

theorem mirrorOK_elim {m : Message} (h : mirrorOK m = true) :
    ∃ v, m.history[m.historyIndex.toNat]? = some v ∧ 0 ≤ m.historyIndex ∧
      m.content = v.content ∧ m.provider = v.provider ∧ m.model = v.model ∧
      m.targetID = v.targetID := by
  unfold mirrorOK at h
  cases hv : m.history[m.historyIndex.toNat]? with
  | none => rw [hv] at h; simp at h
  | some v =>
    rw [hv] at h
    simp only [Bool.and_eq_true, decide_eq_true_eq] at h
    exact ⟨v, rfl, h.1.1.1.1, h.1.1.1.2, h.1.1.2, h.1.2, h.2⟩

theorem mirrorOK_history_ne_nil {m : Message} (h : mirrorOK m = true) : m.history ≠ [] := by
  obtain ⟨v, hv, -⟩ := mirrorOK_elim h
  intro hnil
  rw [hnil] at hv
  simp at hv

theorem ensure_eq_self {m : Message} (h : mirrorOK m = true) : ensureMessageHistory m = m := by
  obtain ⟨v, hv, hge, hc, hp, hmo, ht⟩ := mirrorOK_elim h
  have hne : m.history ≠ [] := mirrorOK_history_ne_nil h
  have hlt : m.historyIndex.toNat < m.history.length := by
    by_contra hcon
    rw [List.getElem?_eq_none (by omega)] at hv
    exact Option.noConfusion hv
  have hseed : ensureSeeded m = m := by
    unfold ensureSeeded
    rw [if_neg (by simp [hne])]
  have hclamp : ensureClamped m = m := by
    unfold ensureClamped
    rw [if_neg (by push_neg; constructor <;> omega)]
  unfold ensureMessageHistory
  rw [hseed, hclamp]
  unfold mirrorCurrent
  rw [hv]
  show ({ m with
            content := v.content, provider := v.provider, model := v.model,
            targetID := v.targetID } : Message) = m
  rw [← hc, ← hp, ← hmo, ← ht]

theorem ensure_history_of_mirrorOK {m : Message} (h : mirrorOK m = true) :
    (ensureMessageHistory m).history = m.history := by
  rw [ensure_eq_self h]

theorem updateChatById_ok_forall {cid : String} {f : Chat → Except String Chat}
    {p : Chat → Prop} :
    ∀ {chats r}, updateChatById chats cid f = .ok r →
      (∀ c ∈ chats, p c) → (∀ c c2, p c → f c = .ok c2 → p c2) →
      ∀ c ∈ r, p c := by
  intro chats
  induction chats with
  | nil =>
    intro r h
    simp [updateChatById] at h
  | cons c rest ih =>
    intro r h hall hf
    unfold updateChatById at h
    by_cases hc : c.id = cid
    · rw [if_pos hc] at h
      cases hfc : f c with
      | ok c2 =>
        rw [hfc] at h
        injection h with h
        subst h
        intro x hx
        rcases List.mem_cons.mp hx with hx | hx
        · exact hx ▸ hf c c2 (hall c (by simp)) hfc
        · exact hall x (by simp [hx])
      | error e =>
        rw [hfc] at h
        exact Except.noConfusion h
    · rw [if_neg hc] at h
      cases hrec : updateChatById rest cid f with
      | ok rest2 =>
        rw [hrec] at h
        injection h with h
        subst h
        intro x hx
        rcases List.mem_cons.mp hx with hx | hx
        · exact hx ▸ hall c (by simp)
        · exact ih hrec (fun y hy => hall y (by simp [hy])) hf x hx
      | error e =>
        rw [hrec] at h
        exact Except.noConfusion h

theorem updateChatById_ok_of_find {cid : String} {f : Chat → Except String Chat} :
    ∀ {chats r c}, updateChatById chats cid f = .ok r →
      findChat chats cid = some c →
      (∀ a b, f a = .ok b → b.id = a.id) →
      ∃ c2, f c = .ok c2 ∧ findChat r cid = some c2 := by
  intro chats
  induction chats with
  | nil =>
    intro r c h
    simp [updateChatById] at h
  | cons a rest ih =>
    intro r c h hfind hid
    unfold updateChatById at h
    unfold findChat at hfind
    by_cases ha : a.id = cid
    · rw [if_pos ha] at h
      rw [if_pos ha] at hfind
      injection hfind with hfind
      cases hfc : f a with
      | ok c2 =>
        rw [hfc] at h
        injection h with h
        subst h
        subst hfind
        refine ⟨c2, hfc, ?_⟩
        unfold findChat
        rw [if_pos (by rw [hid a c2 hfc]; exact ha)]
      | error e =>
        rw [hfc] at h
        exact Except.noConfusion h
    · rw [if_neg ha] at h
      rw [if_neg ha] at hfind
      cases hrec : updateChatById rest cid f with
      | ok rest2 =>
        rw [hrec] at h
        injection h with h
        subst h
        obtain ⟨c2, hfc, hfind2⟩ := ih hrec hfind hid
        refine ⟨c2, hfc, ?_⟩
        unfold findChat
        rw [if_neg ha]
        exact hfind2
      | error e =>
        rw [hrec] at h
        exact Except.noConfusion h

theorem updateChatById_error_of_find {cid e : String} {f : Chat → Except String Chat} :
    ∀ {chats c}, findChat chats cid = some c → f c = .error e →
      updateChatById chats cid f = .error e := by
  intro chats
  induction chats with
  | nil =>
    intro c h
    simp [findChat] at h
  | cons a rest ih =>
    intro c hfind hfc
    unfold findChat at hfind
    unfold updateChatById
    by_cases ha : a.id = cid
    · rw [if_pos ha] at hfind
      injection hfind with hfind
      subst hfind
      rw [if_pos ha, hfc]
    · rw [if_neg ha] at hfind
      rw [if_neg ha, ih hfind hfc]

theorem updateChatById_find_other {cid : String} {f : Chat → Except String Chat} :
    ∀ {chats r}, updateChatById chats cid f = .ok r →
      (∀ a b, f a = .ok b → b.id = a.id) →
      ∀ fid, fid ≠ cid → findChat r fid = findChat chats fid := by
  intro chats
  induction chats with
  | nil =>
    intro r h
    simp [updateChatById] at h
  | cons a rest ih =>
    intro r h hid fid hne
    unfold updateChatById at h
    by_cases ha : a.id = cid
    · rw [if_pos ha] at h
      cases hfc : f a with
      | ok c2 =>
        rw [hfc] at h
        injection h with h
        subst h
        unfold findChat
        have h2 : c2.id = a.id := hid a c2 hfc
        have h3 : ¬(c2.id = fid) := by rw [h2, ha]; exact fun hx => hne hx.symm
        have h4 : ¬(a.id = fid) := by rw [ha]; exact fun hx => hne hx.symm
        rw [if_neg h3, if_neg h4]
      | error e =>
        rw [hfc] at h
        exact Except.noConfusion h
    · rw [if_neg ha] at h
      cases hrec : updateChatById rest cid f with
      | ok rest2 =>
        rw [hrec] at h
        injection h with h
        subst h
        unfold findChat
        by_cases hpa : a.id = fid
        · rw [if_pos hpa, if_pos hpa]
        · rw [if_neg hpa, if_neg hpa]
          exact ih hrec hid fid hne
      | error e =>
        rw [hrec] at h
        exact Except.noConfusion h

theorem updateMessageById_ok {mid : String} {f : Message → Except String Message} :
    ∀ {msgs r}, updateMessageById msgs mid f = .ok r →
      ∃ i m m2, indexOfMessage msgs mid = some i ∧ msgs[i]? = some m ∧ f m = .ok m2 ∧
        r = msgs.set i m2 := by
  intro msgs
  induction msgs with
  | nil =>
    intro r h
    simp [updateMessageById] at h
  | cons a rest ih =>
    intro r h
    unfold updateMessageById at h
    by_cases ha : a.id = mid
    · rw [if_pos ha] at h
      cases hfa : f a with
      | ok m2 =>
        rw [hfa] at h
        injection h with h
        subst h
        exact ⟨0, a, m2, by simp [indexOfMessage, ha], by simp, hfa, by simp⟩
      | error e =>
        rw [hfa] at h
        exact Except.noConfusion h
    · rw [if_neg ha] at h
      cases hrec : updateMessageById rest mid f with
      | ok rest2 =>
        rw [hrec] at h
        injection h with h
        subst h
        obtain ⟨i, m, m2, hidx, hget, hfm, hset⟩ := ih hrec
        refine ⟨i + 1, m, m2, ?_, by simpa using hget, hfm, by simp [hset]⟩
        unfold indexOfMessage
        rw [if_neg ha, hidx]
        rfl
      | error e =>
        rw [hrec] at h
        exact Except.noConfusion h

theorem updateMessageById_error_of {mid e : String} {f : Message → Except String Message} :
    ∀ {msgs i m}, indexOfMessage msgs mid = some i → msgs[i]? = some m →
      f m = .error e → updateMessageById msgs mid f = .error e := by
  intro msgs
  induction msgs with
  | nil =>
    intro i m h
    simp [indexOfMessage] at h
  | cons a rest ih =>
    intro i m hidx hget hfm
    unfold indexOfMessage at hidx
    unfold updateMessageById
    by_cases ha : a.id = mid
    · rw [if_pos ha] at hidx
      injection hidx with hidx
      subst hidx
      simp only [List.getElem?_cons_zero] at hget
      injection hget with hget
      subst hget
      rw [if_pos ha, hfm]
    · rw [if_neg ha] at hidx
      rw [Option.map_eq_some'] at hidx
      obtain ⟨k, hrec, hk⟩ := hidx
      subst hk
      simp only [List.getElem?_cons_succ] at hget
      rw [if_neg ha, ih hrec hget hfm]

/-- C2: the inclusion filter is a pure total Boolean function agreeing with the
spec table: `dont_include` never, `always` always, `model_only` iff the
effective scope (scopeId defaulting to own targetId) is empty or equals the
target, and for any other inclusion value user messages are included while
assistant messages are included iff their own (trimmed) targetId is non-empty
and equals the target. -/
theorem messageIncludedForTarget_spec (msg : Message) (targetID : String) :
    messageIncludedForTarget msg targetID = true ↔ includedSpec msg targetID := by
  unfold messageIncludedForTarget includedSpec
  split_ifs <;> simp_all <;> tauto

theorem ceil_div_four (c : Nat) : (Int.ceil ((c : ℚ) / 4)).toNat = (c + 3) / 4 := by
  have hrw : ((c : ℚ) / 4) = -((((-(c : ℤ)) : ℤ) : ℚ) / ((4 : ℕ) : ℚ)) := by
    push_cast
    ring
  rw [hrw, Int.ceil_neg, Rat.floor_intCast_div_natCast]
  omega

theorem round_percent (est n : Nat) (hn : 0 < n) :
    roundHalfAwayFromZero ((est : ℚ) * 100 / (n : ℚ)) = ((200 * est + n) / (2 * n) : ℕ) := by
  unfold roundHalfAwayFromZero
  have hpos : (0 : ℚ) ≤ (est : ℚ) * 100 / (n : ℚ) := by positivity
  rw [if_pos hpos]
  have hn0 : (n : ℚ) ≠ 0 := Nat.cast_ne_zero.mpr hn.ne'
  have hq : (est : ℚ) * 100 / (n : ℚ) + 1/2 =
      (((200 * est + n : ℕ) : ℤ) : ℚ) / (((2 * n : ℕ)) : ℚ) := by
    push_cast
    field_simp
    ring
  rw [hq, Rat.floor_intCast_div_natCast, ← Int.ofNat_ediv]

/-- C8: the estimator computes `max 1 (ceil(chars/4))` — in particular `1` on
empty filtered history and empty prompt — and whenever the fetched maximum
`n` is known and positive, the item reports `remaining = n - estimated` and
`usedPercent = round(estimated*100/n)` floored at 0, which by `round_percent`
equals the exact integer form `(200*estimated + n) / (2*n)`. -/
theorem contextBudget_spec :
    (∀ baseHistory targetID prompt,
      estimateContextTokens baseHistory targetID prompt =
        max 1 ((contextCharCount baseHistory targetID prompt + 3) / 4)) ∧
    (∀ targetID, estimateContextTokens [] targetID "" = 1) ∧
    (∀ provider model n baseHistory prompt, 0 < n →
      (resolveContextItem provider model (.ok n) baseHistory prompt).remainingTokens =
        some ((n : Int) -
          ((resolveContextItem provider model (.ok n) baseHistory prompt).estimatedTokens : Int)) ∧
      (resolveContextItem provider model (.ok n) baseHistory prompt).usedPercent =
        some (((200 * (resolveContextItem provider model (.ok n) baseHistory
          prompt).estimatedTokens + n) / (2 * n) : Nat) : Int)) := by
  have hest : ∀ baseHistory targetID prompt,
      estimateContextTokens baseHistory targetID prompt =
        max 1 ((contextCharCount baseHistory targetID prompt + 3) / 4) := by
    intro baseHistory targetID prompt
    rw [estimateContextTokens]
    by_cases h : contextCharCount baseHistory targetID prompt ≤ 0
    · rw [if_pos h]
      have h0 : contextCharCount baseHistory targetID prompt = 0 := by omega
      rw [h0]
      decide
    · rw [if_neg h, ceil_div_four]
      omega
  refine ⟨hest, ?_, ?_⟩
  · intro targetID
    rw [hest]
    have h0 : contextCharCount [] targetID "" = 0 := by
      simp [contextCharCount, buildTargetHistory]
    rw [h0]
    decide
  · intro provider model n baseHistory prompt hn
    have hitem : resolveContextItem provider model (.ok n) baseHistory prompt =
        { targetID := provider ++ ":" ++ model, provider := provider, model := model,
          maxContextTokens := n,
          estimatedTokens := estimateContextTokens baseHistory (provider ++ ":" ++ model) prompt,
          remainingTokens := some ((n : Int) -
            (estimateContextTokens baseHistory (provider ++ ":" ++ model) prompt : Int)),
          usedPercent :=
            some (let used := roundHalfAwayFromZero
                    ((estimateContextTokens baseHistory (provider ++ ":" ++ model) prompt : ℚ)
                      * 100 / (n : ℚ))
                  if used < 0 then 0 else used),
          errMsg := none } := by
      rw [resolveContextItem]
      simp only [hn, if_true]
    rw [hitem]
    refine ⟨rfl, ?_⟩
    simp only [Option.some.injEq]
    rw [round_percent _ n hn]
    have hge : (0 : Int) ≤ ((200 * estimateContextTokens baseHistory
        (provider ++ ":" ++ model) prompt + n) / (2 * n) : ℕ) := Int.ofNat_nonneg _
    rw [if_neg (by omega)]

theorem getElem?_some_lt {α : Type} {l : List α} {i : Nat} {a : α}
    (h : l[i]? = some a) : i < l.length := by
  by_contra hcon
  rw [List.getElem?_eq_none (by omega)] at h
  exact Option.noConfusion h

theorem findChat_mem : ∀ {chats : List Chat} {cid : String} {c : Chat},
    findChat chats cid = some c → c ∈ chats := by
  intro chats
  induction chats with
  | nil => intro cid c h; simp [findChat] at h
  | cons a rest ih =>
    intro cid c h
    unfold findChat at h
    by_cases ha : a.id = cid
    · rw [if_pos ha] at h
      injection h with h
      simp [h]
    · rw [if_neg ha] at h
      exact List.mem_cons_of_mem a (ih h)

theorem storeOK_message {chats : List Chat} {c : Chat} {m : Message}
    (h : storeOK chats = true) (hc : c ∈ chats) (hm : m ∈ c.messages) : mirrorOK m = true := by
  unfold storeOK at h
  rw [List.all_eq_true] at h
  have hco := h c hc
  unfold chatOK at hco
  rw [List.all_eq_true] at hco
  exact hco m hm

theorem withChatMessages_id {now : Nat} {g : List Message → Except String (List Message)} :
    ∀ a b, withChatMessages now g a = .ok b → b.id = a.id := by
  intro a b hab
  unfold withChatMessages at hab
  cases hga : g a.messages with
  | ok msgs =>
    rw [hga] at hab
    injection hab with hab
    rw [← hab]
  | error e =>
    rw [hga] at hab
    exact Except.noConfusion hab

theorem withChatMessages_ok {now : Nat} {g : List Message → Except String (List Message)}
    {a b : Chat} (h : withChatMessages now g a = .ok b) :
    ∃ msgs, g a.messages = .ok msgs ∧ b = { a with messages := msgs, updatedAt := now } := by
  unfold withChatMessages at h
  cases hga : g a.messages with
  | ok msgs =>
    rw [hga] at h
    injection h with h
    exact ⟨msgs, rfl, h.symm⟩
  | error e =>
    rw [hga] at h
    exact Except.noConfusion h

theorem withChatMessages_error {now : Nat} {g : List Message → Except String (List Message)}
    {a : Chat} {e : String} (h : g a.messages = .error e) :
    withChatMessages now g a = .error e := by
  unfold withChatMessages
  rw [h]

/-- C10: `EditUserMessageInPlace` with blank (empty or whitespace-only)
content fails with `content is required` for every store and every pair of
ids — the check runs before any lookup, so the error result carries no
mutated state. -/
theorem editUserMessageInPlace_blankContent_error (chats : List Chat)
    (chatID messageID content : String) (now : Nat) (h : trimSpace content = "") :
    editUserMessageInPlace chats chatID messageID content now = .error "content is required" := by
  unfold editUserMessageInPlace
  simp [h]

/-- Witness for C10 at a concrete whitespace-only input. -/
theorem editUserMessageInPlace_blankContent_error_witness :
    trimSpace "  " = "" ∧
      editUserMessageInPlace sampleChats "c1" "m1" "  " 5 = .error "content is required" :=
  ⟨by decide, editUserMessageInPlace_blankContent_error sampleChats "c1" "m1" "  " 5 (by decide)⟩

/-- C5: a successful in-place edit of message `i` of a chat appends exactly
one version (history length +1), points `historyIndex` at it, stores the
trimmed new content, and truncates the chat to `i + 1` messages; and the
operation fails with `only user messages can be edited` when the target
message is not a user message. -/
theorem editUserMessageInPlace_spec :
    (∀ chats cid mid content now r c i m,
      storeOK chats = true →
      editUserMessageInPlace chats cid mid content now = .ok r →
      findChat chats cid = some c →
      indexOfMessage c.messages mid = some i →
      c.messages[i]? = some m →
      m.role = "user" ∧
      ∃ c2 m2, findChat r cid = some c2 ∧
        c2.messages.length = i + 1 ∧
        c2.messages[i]? = some m2 ∧
        m2.history.length = m.history.length + 1 ∧
        m2.historyIndex = (m2.history.length : Int) - 1 ∧
        m2.content = trimSpace content) ∧
    (∀ chats cid mid content now c i m,
      findChat chats cid = some c →
      indexOfMessage c.messages mid = some i →
      c.messages[i]? = some m →
      m.role ≠ "user" →
      trimSpace content ≠ "" →
      editUserMessageInPlace chats cid mid content now =
        .error "only user messages can be edited") := by
  constructor
  · intro chats cid mid content now r c i m hwf hok hfind hidx hget
    unfold editUserMessageInPlace at hok
    by_cases hblank : trimSpace content = ""
    · rw [if_pos hblank] at hok
      exact Except.noConfusion hok
    rw [if_neg hblank] at hok
    obtain ⟨c2, hfc, hfind2⟩ := updateChatById_ok_of_find hok hfind withChatMessages_id
    obtain ⟨msgs2, hg, hc2⟩ := withChatMessages_ok hfc
    simp only [hidx, hget] at hg
    by_cases hrole : m.role = "user"
    · rw [if_neg (by simp [hrole])] at hg
      have hmok : mirrorOK m = true :=
        storeOK_message hwf (findChat_mem hfind) (List.getElem?_mem hget)
      have hens : ensureMessageHistory m = m := ensure_eq_self hmok
      rw [hens] at hg
      injection hg with hg
      have hlt : i < c.messages.length := getElem?_some_lt hget
      refine ⟨hrole, c2,
        { m with
            history := m.history ++ [(⟨trimSpace content, "", "", "", now⟩ : MessageVersion)],
            historyIndex :=
              ((m.history ++ [(⟨trimSpace content, "", "", "", now⟩ : MessageVersion)]).length :
                Int) - 1,
            content := trimSpace content, provider := "", model := "", targetID := "",
            createdAt := now },
        hfind2, ?_, ?_, by simp, by simp, by simp⟩
      · rw [hc2]
        simp only [← hg, List.length_take, List.length_set]
        omega
      · rw [hc2]
        simp only [← hg]
        rw [List.getElem?_take, if_pos (by omega : i < i + 1), List.getElem?_set]
        simp [hlt]
    · rw [if_pos hrole] at hg
      exact Except.noConfusion hg
  · intro chats cid mid content now c i m hfind hidx hget hrole hcontent
    unfold editUserMessageInPlace
    rw [if_neg hcontent]
    apply updateChatById_error_of_find hfind
    apply withChatMessages_error
    simp only [hidx, hget]
    rw [if_pos hrole]

/-- Witness for C5 at the sample store. -/
theorem editUserMessageInPlace_spec_witness :
    sampleUserMsg.role = "user" ∧
    ∃ c2 m2, findChat [sampleEditedChat] "c1" = some c2 ∧
      c2.messages.length = 0 + 1 ∧
      c2.messages[0]? = some m2 ∧
      m2.history.length = sampleUserMsg.history.length + 1 ∧
      m2.historyIndex = (m2.history.length : Int) - 1 ∧
      m2.content = trimSpace "new" :=
  editUserMessageInPlace_spec.1 sampleChats "c1" "m1" "new" 5 [sampleEditedChat] sampleChat 0
    sampleUserMsg (by decide) (by rfl) (by decide) (by decide) (by decide)

/-- C6: a successful `replaceAssistantMessage` keeps the message id, appends
the replacement as exactly one new version (history length +1), points
`historyIndex` at the new last entry, refreshes `createdAt`, and stores the
replacement content; it fails with `target message is not assistant` when
the target message is not an assistant message. -/
theorem replaceAssistantMessage_spec :
    (∀ chats cid mid repl now r c i m,
      storeOK chats = true →
      replaceAssistantMessage chats cid mid repl now = .ok r →
      findChat chats cid = some c →
      indexOfMessage c.messages mid = some i →
      c.messages[i]? = some m →
      ∃ c2 m2, findChat r cid = some c2 ∧
        c2.messages = c.messages.set i m2 ∧
        m2.id = m.id ∧
        m2.history.length = m.history.length + 1 ∧
        m2.historyIndex = (m2.history.length : Int) - 1 ∧
        m2.createdAt = now ∧
        m2.content = repl.content) ∧
    (∀ chats cid mid repl now c i m,
      findChat chats cid = some c →
      indexOfMessage c.messages mid = some i →
      c.messages[i]? = some m →
      m.role ≠ "assistant" →
      replaceAssistantMessage chats cid mid repl now =
        .error "target message is not assistant") := by
  constructor
  · intro chats cid mid repl now r c i m hwf hok hfind hidx hget
    unfold replaceAssistantMessage at hok
    obtain ⟨c2, hfc, hfind2⟩ := updateChatById_ok_of_find hok hfind withChatMessages_id
    obtain ⟨msgs2, hg, hc2⟩ := withChatMessages_ok hfc
    obtain ⟨j, mj, m2, hjdx, hjget, hgm, hset⟩ := updateMessageById_ok hg
    rw [hidx] at hjdx
    injection hjdx with hjdx
    subst hjdx
    rw [hget] at hjget
    injection hjget with hjget
    subst hjget
    by_cases hrole : m.role = "assistant"
    · rw [if_neg (by simp [hrole])] at hgm
      injection hgm with hgm
      have hmok : mirrorOK m = true :=
        storeOK_message hwf (findChat_mem hfind) (List.getElem?_mem hget)
      have hens : ensureMessageHistory m = m := ensure_eq_self hmok
      refine ⟨c2, m2, hfind2, by rw [hc2, hset], ?_, ?_, ?_, ?_, ?_⟩ <;>
        rw [← hgm] <;> simp [hens]
    · rw [if_pos hrole] at hgm
      exact Except.noConfusion hgm
  · intro chats cid mid repl now c i m hfind hidx hget hrole
    unfold replaceAssistantMessage
    apply updateChatById_error_of_find hfind
    apply withChatMessages_error
    rw [updateMessageById_error_of hidx hget (by rw [if_pos hrole])]

/-- Witness for C6 at the sample store. -/
theorem replaceAssistantMessage_spec_witness :
    ∃ c2 m2, findChat [sampleReplacedChat] "c1" = some c2 ∧
      c2.messages = sampleChat.messages.set 1 m2 ∧
      m2.id = sampleAsstMsg.id ∧
      m2.history.length = sampleAsstMsg.history.length + 1 ∧
      m2.historyIndex = (m2.history.length : Int) - 1 ∧
      m2.createdAt = 7 ∧
      m2.content = sampleReplacement.content :=
  replaceAssistantMessage_spec.1 sampleChats "c1" "m2" sampleReplacement 7 [sampleReplacedChat]
    sampleChat 1 sampleAsstMsg (by decide) (by rfl) (by decide) (by decide) (by decide)

theorem mirrorOK_of_concat {m : Message} {H : List MessageVersion} {v : MessageVersion}
    (hh : m.history = H ++ [v])
    (hi : m.historyIndex = ((H ++ [v]).length : Int) - 1)
    (hc : m.content = v.content) (hp : m.provider = v.provider)
    (hmo : m.model = v.model) (ht : m.targetID = v.targetID) : mirrorOK m = true := by
  unfold mirrorOK
  have htn : m.historyIndex.toNat = H.length := by
    rw [hi]
    simp only [List.length_append, List.length_singleton]
    omega
  rw [hh, htn, List.getElem?_concat_length]
  simp only [Bool.and_eq_true, decide_eq_true_eq]
  refine ⟨⟨⟨⟨?_, hc⟩, hp⟩, hmo⟩, ht⟩
  rw [hi]
  simp only [List.length_append, List.length_singleton]
  omega

theorem storeOK_of_updateChat {chats r : List Chat} {cid : String}
    {f : Chat → Except String Chat} (h : updateChatById chats cid f = .ok r)
    (hwf : storeOK chats = true)
    (hf : ∀ c, chatOK c = true → ∀ c2, f c = .ok c2 → chatOK c2 = true) :
    storeOK r = true := by
  unfold storeOK at hwf ⊢
  rw [List.all_eq_true] at hwf ⊢
  exact updateChatById_ok_forall h hwf (fun a b hp hab => hf a hp b hab)

theorem chatOK_elim {c : Chat} (h : chatOK c = true) : ∀ m ∈ c.messages, mirrorOK m = true := by
  unfold chatOK at h
  rw [List.all_eq_true] at h
  exact h

theorem chatOK_intro {c : Chat} (h : ∀ m ∈ c.messages, mirrorOK m = true) : chatOK c = true := by
  unfold chatOK
  rw [List.all_eq_true]
  exact h

theorem withChatMessages_chatOK {now : Nat} {g : List Message → Except String (List Message)}
    (hg : ∀ msgs, (∀ m ∈ msgs, mirrorOK m = true) → ∀ msgs2, g msgs = .ok msgs2 →
      ∀ m ∈ msgs2, mirrorOK m = true) :
    ∀ c, chatOK c = true → ∀ c2, withChatMessages now g c = .ok c2 → chatOK c2 = true := by
  intro c hc c2 h2
  obtain ⟨msgs2, hgm, hc2⟩ := withChatMessages_ok h2
  subst hc2
  exact chatOK_intro (hg c.messages (chatOK_elim hc) msgs2 hgm)

theorem updateMessageById_all {msgs msgs2 : List Message} {mid : String}
    {gm : Message → Except String Message} (h : updateMessageById msgs mid gm = .ok msgs2)
    (hall : ∀ m ∈ msgs, mirrorOK m = true)
    (hgm : ∀ m, mirrorOK m = true → ∀ m2, gm m = .ok m2 → mirrorOK m2 = true) :
    ∀ m ∈ msgs2, mirrorOK m = true := by
  obtain ⟨i, m, m2, hidx, hget, hfm, hset⟩ := updateMessageById_ok h
  subst hset
  intro x hx
  rcases List.mem_or_eq_of_mem_set hx with hx | hx
  · exact hall x hx
  · exact hx ▸ hgm m (hall m (List.getElem?_mem hget)) m2 hfm

/-- C4: the mirror invariant — non-empty history, in-range `historyIndex`,
and content/provider/model/targetId equal to `history[historyIndex]` for
every message of every chat — is established by the load normalization and
preserved by every store mutation: append user prompt, append assistant
outputs, replace assistant message, edit user message in place, set history
index, update inclusion, and fork. -/
theorem mirrorInvariant_spec :
    (∀ chats, storeOK (normalizeLoadedChats chats) = true) ∧
    (∀ chats cid prompt nid now r, storeOK chats = true →
      appendUserPrompt chats cid prompt nid now = .ok r → storeOK r = true) ∧
    (∀ chats cid outputs newMsgID now r, storeOK chats = true →
      appendAssistantMessages chats cid outputs newMsgID now = .ok r → storeOK r = true) ∧
    (∀ chats cid mid repl now r, storeOK chats = true →
      replaceAssistantMessage chats cid mid repl now = .ok r → storeOK r = true) ∧
    (∀ chats cid mid content now r, storeOK chats = true →
      editUserMessageInPlace chats cid mid content now = .ok r → storeOK r = true) ∧
    (∀ chats cid mid index now r, storeOK chats = true →
      setMessageHistoryIndex chats cid mid index now = .ok r → storeOK r = true) ∧
    (∀ chats cid mid inc scope now r, storeOK chats = true →
      updateMessageInclusion chats cid mid inc scope now = .ok r → storeOK r = true) ∧
    (∀ chats cid mid title nid now r fork, storeOK chats = true →
      forkChatFromMessage chats cid mid title nid now = .ok (r, fork) →
      storeOK r = true) := by
  refine ⟨?_, ?_, ?_, ?_, ?_, ?_, ?_, ?_⟩
  -- load normalization
  · intro chats
    unfold storeOK normalizeLoadedChats
    rw [List.all_eq_true]
    intro c hc
    rw [List.mem_map] at hc
    obtain ⟨c0, -, hc0⟩ := hc
    subst hc0
    apply chatOK_intro
    intro m hm
    simp only [List.mem_map] at hm
    obtain ⟨m0, -, hm0⟩ := hm
    subst hm0
    unfold normalizeLoadedMessage
    exact ensure_mirrorOK _
  -- appendUserPrompt
  · intro chats cid prompt nid now r hwf hok
    unfold appendUserPrompt at hok
    refine storeOK_of_updateChat hok hwf ?_
    intro c hc c2 h2
    injection h2 with h2
    subst h2
    apply chatOK_intro
    intro m hm
    simp only [List.mem_append, List.mem_singleton] at hm
    rcases hm with hm | hm
    · exact chatOK_elim hc m hm
    · subst hm
      simp [mirrorOK]
  -- appendAssistantMessages
  · intro chats cid outputs newMsgID now r hwf hok
    unfold appendAssistantMessages at hok
    refine storeOK_of_updateChat hok hwf ?_
    intro c hc c2 h2
    injection h2 with h2
    subst h2
    apply chatOK_intro
    intro m hm
    simp only [List.mem_append] at hm
    rcases hm with hm | hm
    · exact chatOK_elim hc m hm
    · rw [List.mem_filterMap] at hm
      obtain ⟨p, -, hp⟩ := hm
      by_cases hblank : trimSpace p.2.content = ""
      · rw [if_pos hblank] at hp
        exact Option.noConfusion hp
      · rw [if_neg hblank] at hp
        injection hp with hp
        subst hp
        simp [mirrorOK, assistantOutputMessage]
  -- replaceAssistantMessage
  · intro chats cid mid repl now r hwf hok
    unfold replaceAssistantMessage at hok
    refine storeOK_of_updateChat hok hwf (withChatMessages_chatOK ?_)
    intro msgs hall msgs2 hg
    refine updateMessageById_all hg hall ?_
    intro m hmok m2 hm2
    by_cases hrole : m.role = "assistant"
    · rw [if_neg (by simp [hrole])] at hm2
      injection hm2 with hm2
      subst hm2
      exact mirrorOK_of_concat rfl (by simp) rfl rfl rfl rfl
    · rw [if_pos hrole] at hm2
      exact Except.noConfusion hm2
  -- editUserMessageInPlace
  · intro chats cid mid content now r hwf hok
    unfold editUserMessageInPlace at hok
    by_cases hblank : trimSpace content = ""
    · rw [if_pos hblank] at hok
      exact Except.noConfusion hok
    rw [if_neg hblank] at hok
    refine storeOK_of_updateChat hok hwf (withChatMessages_chatOK ?_)
    intro msgs hall msgs2 hg
    cases hidx : indexOfMessage msgs mid with
    | none => simp only [hidx] at hg; exact Except.noConfusion hg
    | some idx =>
      simp only [hidx] at hg
      cases hget : msgs[idx]? with
      | none => simp only [hget] at hg; exact Except.noConfusion hg
      | some m =>
        simp only [hget] at hg
        by_cases hrole : m.role = "user"
        · rw [if_neg (by simp [hrole])] at hg
          injection hg with hg
          subst hg
          intro x hx
          rcases List.mem_or_eq_of_mem_set (List.mem_of_mem_take hx) with hx2 | hx2
          · exact hall x hx2
          · subst hx2
            exact mirrorOK_of_concat rfl (by simp) rfl rfl rfl rfl
        · rw [if_pos hrole] at hg
          exact Except.noConfusion hg
  -- setMessageHistoryIndex
  · intro chats cid mid index now r hwf hok
    unfold setMessageHistoryIndex at hok
    by_cases hneg : index < 0
    · rw [if_pos hneg] at hok
      exact Except.noConfusion hok
    rw [if_neg hneg] at hok
    refine storeOK_of_updateChat hok hwf (withChatMessages_chatOK ?_)
    intro msgs hall msgs2 hg
    refine updateMessageById_all hg hall ?_
    intro m hmok m2 hm2
    by_cases hrange : ((ensureMessageHistory m).history.length : Int) ≤ index
    · rw [if_pos hrange] at hm2
      exact Except.noConfusion hm2
    · rw [if_neg hrange] at hm2
      cases hv : (ensureMessageHistory m).history[index.toNat]? with
      | none => rw [hv] at hm2; exact Except.noConfusion hm2
      | some v =>
        rw [hv] at hm2
        injection hm2 with hm2
        subst hm2
        split <;>
        · unfold mirrorOK
          simp only []
          rw [hv]
          simp
          omega
  -- updateMessageInclusion
  · intro chats cid mid inc scope now r hwf hok
    unfold updateMessageInclusion at hok
    by_cases hinc : normalizeInclusion inc = ""
    · rw [if_pos hinc] at hok
      exact Except.noConfusion hok
    rw [if_neg hinc] at hok
    refine storeOK_of_updateChat hok hwf (withChatMessages_chatOK ?_)
    intro msgs hall msgs2 hg
    refine updateMessageById_all hg hall ?_
    intro m hmok m2 hm2
    injection hm2 with hm2
    subst hm2
    split
    · split <;> exact hmok
    · exact hmok
  -- forkChatFromMessage
  · intro chats cid mid title nid now r fork hwf hok
    unfold forkChatFromMessage at hok
    split at hok
    · exact Except.noConfusion hok
    · next source hfind =>
      split at hok
      · exact Except.noConfusion hok
      · next msgIdx hidx =>
        injection hok with hok
        have hr : r = chats ++
            [{ id := nid, folderID := source.folderID,
               title := trimSpace (if trimSpace title = ""
                 then source.title ++ " (Fork)" else title),
               messages := source.messages.take (msgIdx + 1),
               createdAt := now, updatedAt := now }] := (congrArg Prod.fst hok).symm
        subst hr
        unfold storeOK
        rw [List.all_eq_true]
        intro c hc
        rw [List.mem_append] at hc
        rcases hc with hc | hc
        · unfold storeOK at hwf
          rw [List.all_eq_true] at hwf
          exact hwf c hc
        · rw [List.mem_singleton] at hc
          subst hc
          apply chatOK_intro
          intro m hm
          simp only [] at hm
          have hsrc : chatOK source = true := by
            unfold storeOK at hwf
            rw [List.all_eq_true] at hwf
            exact hwf source (findChat_mem hfind)
          exact chatOK_elim hsrc m (List.mem_of_mem_take hm)

/-- Witness for C4: the append-user-prompt conjunct at the sample store. -/
theorem mirrorInvariant_spec_witness :
    storeOK [{ sampleChat with
                 messages := sampleChat.messages ++
                   [{ id := "m9", role := "user", content := "p", provider := "", model := "",
                      targetID := "", inclusion := "always", scopeID := "",
                      history := [⟨"p", "", "", "", 9⟩], historyIndex := 0, createdAt := 9 }],
                 updatedAt := 9 }] = true :=
  mirrorInvariant_spec.2.1 sampleChats "c1" "p" "m9" 9 _ (by decide) (by rfl)

theorem findChat_append : ∀ (l1 l2 : List Chat) (fid : String),
    findChat (l1 ++ l2) fid =
      match findChat l1 fid with
      | some c => some c
      | none => findChat l2 fid := by
  intro l1 l2 fid
  induction l1 with
  | nil => rfl
  | cons a rest ih =>
    have e1 : findChat ((a :: rest) ++ l2) fid =
        if a.id = fid then some a else findChat (rest ++ l2) fid := rfl
    have e2 : findChat (a :: rest) fid =
        if a.id = fid then some a else findChat rest fid := rfl
    rw [e1, e2]
    by_cases ha : a.id = fid
    · rw [if_pos ha, if_pos ha]
    · rw [if_neg ha, if_neg ha, ih]

/-- C7: a successful fork copies the source messages up to and including the
addressed message into a brand-new chat of length `i + 1` appended to the
store; and no subsequent mutation addressed at any other chat id (in
particular the source chat) changes the fork's stored record, for every
store operation. -/
theorem forkChatFromMessage_spec :
    (∀ chats cid mid title nid now chats2 fork,
      forkChatFromMessage chats cid mid title nid now = .ok (chats2, fork) →
      ∃ c i, findChat chats cid = some c ∧ indexOfMessage c.messages mid = some i ∧
        fork.id = nid ∧
        fork.messages = c.messages.take (i + 1) ∧
        fork.messages.length = i + 1 ∧
        chats2 = chats ++ [fork] ∧
        (findChat chats nid = none → findChat chats2 nid = some fork)) ∧
    (∀ s fid fork, findChat s fid = some fork →
      (∀ cid prompt nid now r, cid ≠ fid →
        appendUserPrompt s cid prompt nid now = .ok r → findChat r fid = some fork) ∧
      (∀ cid outputs nids now r, cid ≠ fid →
        appendAssistantMessages s cid outputs nids now = .ok r → findChat r fid = some fork) ∧
      (∀ cid mid repl now r, cid ≠ fid →
        replaceAssistantMessage s cid mid repl now = .ok r → findChat r fid = some fork) ∧
      (∀ cid mid content now r, cid ≠ fid →
        editUserMessageInPlace s cid mid content now = .ok r → findChat r fid = some fork) ∧
      (∀ cid mid index now r, cid ≠ fid →
        setMessageHistoryIndex s cid mid index now = .ok r → findChat r fid = some fork) ∧
      (∀ cid mid inc scope now r, cid ≠ fid →
        updateMessageInclusion s cid mid inc scope now = .ok r →
        findChat r fid = some fork) ∧
      (∀ cid mid title2 nid now r fork2, cid ≠ fid →
        forkChatFromMessage s cid mid title2 nid now = .ok (r, fork2) →
        findChat r fid = some fork)) := by
  constructor
  · intro chats cid mid title nid now chats2 fork hok
    unfold forkChatFromMessage at hok
    split at hok
    · exact Except.noConfusion hok
    · next source hfind =>
      split at hok
      · exact Except.noConfusion hok
      · next msgIdx hidx =>
        injection hok with hok
        have h1 : chats2 = chats ++
            [{ id := nid, folderID := source.folderID,
               title := trimSpace (if trimSpace title = ""
                 then source.title ++ " (Fork)" else title),
               messages := source.messages.take (msgIdx + 1),
               createdAt := now, updatedAt := now }] := (congrArg Prod.fst hok).symm
        have h2 : fork =
            { id := nid, folderID := source.folderID,
              title := trimSpace (if trimSpace title = ""
                then source.title ++ " (Fork)" else title),
              messages := source.messages.take (msgIdx + 1),
              createdAt := now, updatedAt := now } := (congrArg Prod.snd hok).symm
        have hlen := indexOfMessage_lt hidx
        refine ⟨source, msgIdx, hfind, hidx, by rw [h2], by rw [h2], ?_, by rw [h1, h2], ?_⟩
        · rw [h2]
          simp only [List.length_take]
          omega
        · intro hnone
          rw [h1, findChat_append, hnone, ← h2]
          have e3 : findChat [fork] nid = if fork.id = nid then some fork else none := rfl
          rw [e3, if_pos (by rw [h2])]
  · intro s fid fork hfind
    refine ⟨?_, ?_, ?_, ?_, ?_, ?_, ?_⟩
    · intro cid prompt nid now r hne hok
      unfold appendUserPrompt at hok
      rw [updateChatById_find_other hok
        (fun a b hab => by injection hab with hab; rw [← hab]) fid (Ne.symm hne)]
      exact hfind
    · intro cid outputs nids now r hne hok
      unfold appendAssistantMessages at hok
      rw [updateChatById_find_other hok
        (fun a b hab => by injection hab with hab; rw [← hab]) fid (Ne.symm hne)]
      exact hfind
    · intro cid mid repl now r hne hok
      unfold replaceAssistantMessage at hok
      rw [updateChatById_find_other hok withChatMessages_id fid (Ne.symm hne)]
      exact hfind
    · intro cid mid content now r hne hok
      unfold editUserMessageInPlace at hok
      by_cases hblank : trimSpace content = ""
      · rw [if_pos hblank] at hok
        exact Except.noConfusion hok
      · rw [if_neg hblank] at hok
        rw [updateChatById_find_other hok withChatMessages_id fid (Ne.symm hne)]
        exact hfind
    · intro cid mid index now r hne hok
      unfold setMessageHistoryIndex at hok
      by_cases hneg : index < 0
      · rw [if_pos hneg] at hok
        exact Except.noConfusion hok
      · rw [if_neg hneg] at hok
        rw [updateChatById_find_other hok withChatMessages_id fid (Ne.symm hne)]
        exact hfind
    · intro cid mid inc scope now r hne hok
      unfold updateMessageInclusion at hok
      by_cases hinc : normalizeInclusion inc = ""
      · rw [if_pos hinc] at hok
        exact Except.noConfusion hok
      · rw [if_neg hinc] at hok
        rw [updateChatById_find_other hok withChatMessages_id fid (Ne.symm hne)]
        exact hfind
    · intro cid mid title2 nid now r fork2 hne hok
      unfold forkChatFromMessage at hok
      split at hok
      · exact Except.noConfusion hok
      · next source hfind2 =>
        split at hok
        · exact Except.noConfusion hok
        · next msgIdx hidx =>
          injection hok with hok
          have h1 : r = s ++
              [{ id := nid, folderID := source.folderID,
                 title := trimSpace (if trimSpace title2 = ""
                   then source.title ++ " (Fork)" else title2),
                 messages := source.messages.take (msgIdx + 1),
                 createdAt := now, updatedAt := now }] := (congrArg Prod.fst hok).symm
          rw [h1, findChat_append, hfind]

/-- Witness for C7: forking the sample chat at its user message. -/
theorem forkChatFromMessage_spec_witness :
    ∃ c i, findChat sampleChats "c1" = some c ∧ indexOfMessage c.messages "m1" = some i ∧
      sampleForkChat.id = "c9" ∧
      sampleForkChat.messages = c.messages.take (i + 1) ∧
      sampleForkChat.messages.length = i + 1 ∧
      sampleChats ++ [sampleForkChat] = sampleChats ++ [sampleForkChat] ∧
      (findChat sampleChats "c9" = none →
        findChat (sampleChats ++ [sampleForkChat]) "c9" = some sampleForkChat) :=
  forkChatFromMessage_spec.1 sampleChats "c1" "m1" "" "c9" 3
    (sampleChats ++ [sampleForkChat]) sampleForkChat (by rfl)

theorem mapGet_mapSet_self : ∀ (m : List (String × String)) (k v : String),
    mapGet (mapSet m k v) k = some v := by
  intro m k v
  induction m with
  | nil =>
    show mapGet [(k, v)] k = some v
    unfold mapGet
    rw [if_pos rfl]
  | cons p rest ih =>
    unfold mapSet
    by_cases hp : p.1 = k
    · rw [if_pos hp]
      unfold mapGet
      rw [if_pos rfl]
    · rw [if_neg hp]
      unfold mapGet
      rw [if_neg hp]
      exact ih

theorem mapGet_mapSet_ne : ∀ (m : List (String × String)) (k v k2 : String), k2 ≠ k →
    mapGet (mapSet m k v) k2 = mapGet m k2 := by
  intro m k v k2 hne
  induction m with
  | nil =>
    show mapGet [(k, v)] k2 = mapGet [] k2
    unfold mapGet
    rw [if_neg (fun h => hne h.symm)]
    rfl
  | cons p rest ih =>
    unfold mapSet
    by_cases hp : p.1 = k
    · rw [if_pos hp]
      unfold mapGet
      rw [if_neg (fun h => hne h.symm), if_neg (by rw [hp]; exact fun h => hne h.symm)]
    · rw [if_neg hp]
      unfold mapGet
      by_cases hp2 : p.1 = k2
      · rw [if_pos hp2, if_pos hp2]
      · rw [if_neg hp2, if_neg hp2]
        exact ih

theorem replaceFold_get (tid : String) (htid : tid ≠ "") :
    ∀ (l : List Message) (acc : List (String × String)),
      mapGet (l.foldl (fun acc msg =>
        if msg.role ≠ "assistant" then acc
        else
          let t := derivedTargetID msg
          if t = "" then acc else mapSet acc t msg.id) acc) tid =
      match latestReplyID l tid with
      | some i => some i
      | none => mapGet acc tid := by
  intro l
  induction l with
  | nil => intro acc; rfl
  | cons m rest ih =>
    intro acc
    rw [List.foldl_cons, ih]
    have e1 : latestReplyID (m :: rest) tid =
        match latestReplyID rest tid with
        | some i => some i
        | none =>
            if m.role = "assistant" ∧ derivedTargetID m = tid then some m.id else none := rfl
    rw [e1]
    cases hrest : latestReplyID rest tid with
    | some i => rfl
    | none =>
      simp only []
      by_cases hrole : m.role = "assistant"
      · rw [if_neg (by simp [hrole])]
        by_cases hblank : derivedTargetID m = ""
        · rw [if_pos hblank]
          rw [if_neg (by rw [hblank]; exact fun hand => htid hand.2.symm)]
        · rw [if_neg hblank]
          by_cases heq : derivedTargetID m = tid
          · rw [if_pos ⟨hrole, heq⟩, heq, mapGet_mapSet_self]
          · rw [if_neg (fun hand => heq hand.2), mapGet_mapSet_ne _ _ _ _ (fun h => heq h.symm)]
      · rw [if_pos (by simp [hrole]), if_neg (fun hand => hrole hand.1)]

/-- C9: a successful `PrepareUserRegenerate` on a user message at index `i`
returns its content as the prompt, the strictly earlier messages as history,
and a mapping whose value at every non-empty targetId is the id of the
latest assistant reply — scanning forward from the user message until the
next user message — whose derived targetId (own targetId, defaulting to
`lowercase(provider):model` when both are present, other messages being
skipped) equals it. -/
theorem prepareUserRegenerate_spec :
    ∀ chats cid mid prompt history rbt,
      prepareUserRegenerate chats cid mid = .ok (prompt, history, rbt) →
      ∃ c i m, findChat chats cid = some c ∧ indexOfMessage c.messages mid = some i ∧
        c.messages[i]? = some m ∧ m.role = "user" ∧ prompt = m.content ∧
        history = c.messages.take i ∧
        ∀ tid, tid ≠ "" →
          mapGet rbt tid =
            latestReplyID ((c.messages.drop (i + 1)).takeWhile fun x => x.role ≠ "user") tid := by
  intro chats cid mid prompt history rbt hok
  unfold prepareUserRegenerate at hok
  split at hok
  · exact Except.noConfusion hok
  · next chat hfind =>
    split at hok
    · exact Except.noConfusion hok
    · next msgIdx hidx =>
      split at hok
      · exact Except.noConfusion hok
      · next m hget =>
        by_cases hrole : m.role = "user"
        · rw [if_neg (by simp [hrole])] at hok
          injection hok with hok
          have h1 : prompt = m.content := (congrArg (fun p => p.1) hok).symm
          have h2 : history = chat.messages.take msgIdx :=
            (congrArg (fun p => p.2.1) hok).symm
          have h3 : rbt = replaceByTargetMap
              ((chat.messages.drop (msgIdx + 1)).takeWhile fun x => x.role ≠ "user") :=
            (congrArg (fun p => p.2.2) hok).symm
          refine ⟨chat, msgIdx, m, hfind, hidx, hget, hrole, h1, h2, ?_⟩
          intro tid htid
          rw [h3]
          unfold replaceByTargetMap
          rw [replaceFold_get tid htid]
          cases latestReplyID
              ((chat.messages.drop (msgIdx + 1)).takeWhile fun x => x.role ≠ "user") tid with
          | some i => rfl
          | none => rfl
        · rw [if_pos hrole] at hok
          exact Except.noConfusion hok

/-- Witness for C9 at the regenerate sample chat: the mapping keeps the
latest reply per target and derives the missing targetId from
provider/model. -/
theorem prepareUserRegenerate_spec_witness :
    ∃ c i m, findChat [regenChat] "rc" = some c ∧ indexOfMessage c.messages "u1" = some i ∧
      c.messages[i]? = some m ∧ m.role = "user" ∧ "q" = m.content ∧
      ([] : List Message) = c.messages.take i ∧
      ∀ tid, tid ≠ "" →
        mapGet [("ollama:l3", "a2"), ("openrouter:gpt", "a3")] tid =
          latestReplyID ((c.messages.drop (i + 1)).takeWhile fun x => x.role ≠ "user") tid :=
  prepareUserRegenerate_spec [regenChat] "rc" "u1" "q" []
    [("ollama:l3", "a2"), ("openrouter:gpt", "a3")] (by rfl)

/-! ### Stream orchestration lemmas -/

theorem mux_filter_eq {α : Type} (p : α → Bool) :
    ∀ (sched : List Nat) (ls : List (List α)) (es : List α) (i : Nat) (li : List α),
      mux ls sched = some es →
      ls[i]? = some li →
      (∀ j lj, j ≠ i → ls[j]? = some lj → ∀ a ∈ lj, p a = false) →
      es.filter p = li.filter p := by
  intro sched
  induction sched with
  | nil =>
    intro ls es i li h hli hothers
    unfold mux at h
    split at h
    · next hall =>
      injection h with h
      subst h
      rw [List.all_eq_true] at hall
      have hempty : li.isEmpty = true := hall li (List.getElem?_mem hli)
      rw [List.isEmpty_iff] at hempty
      rw [hempty]
    · exact Option.noConfusion h
  | cons j rest ih =>
    intro ls es i li h hli hothers
    unfold mux at h
    cases hj : ls[j]? with
    | none =>
      rw [hj] at h
      exact Option.noConfusion h
    | some lj =>
      cases lj with
      | nil =>
        rw [hj] at h
        exact Option.noConfusion h
      | cons a as =>
        rw [hj] at h
        rw [Option.map_eq_some'] at h
        obtain ⟨es2, hrec, hes⟩ := h
        subst hes
        have hjlen : j < ls.length := getElem?_some_lt hj
        by_cases hij : j = i
        · subst hij
          rw [hj] at hli
          injection hli with hli
          subst hli
          have h2 : (ls.set j as)[j]? = some as := by
            rw [List.getElem?_set]
            simp [hjlen]
          have hothers2 : ∀ k lk, k ≠ j → (ls.set j as)[k]? = some lk →
              ∀ b ∈ lk, p b = false := by
            intro k lk hk hlk b hb
            rw [List.getElem?_set_ne (fun hh => hk hh.symm)] at hlk
            exact hothers k lk hk hlk b hb
          have htail := ih (ls.set j as) es2 j as hrec h2 hothers2
          simp only [List.filter_cons]
          by_cases hpa : p a = true
          · rw [if_pos hpa, if_pos hpa, htail]
          · rw [if_neg hpa, if_neg hpa, htail]
        · have hpa : p a = false := hothers j (a :: as) hij hj a (List.mem_cons_self a as)
          have h2 : (ls.set j as)[i]? = some li := by
            rw [List.getElem?_set_ne hij]
            exact hli
          have hothers2 : ∀ k lk, k ≠ i → (ls.set j as)[k]? = some lk →
              ∀ b ∈ lk, p b = false := by
            intro k lk hk hlk b hb
            by_cases hkj : k = j
            · subst hkj
              have hset : (ls.set k as)[k]? = some as := by
                rw [List.getElem?_set]
                simp [hjlen]
              rw [hset] at hlk
              injection hlk with hlk
              subst hlk
              exact hothers k (a :: as) hk hj b (List.mem_cons_of_mem a hb)
            · rw [List.getElem?_set_ne (fun hh => hkj hh.symm)] at hlk
              exact hothers k lk hk hlk b hb
          have htail := ih (ls.set j as) es2 i li hrec h2 hothers2
          simp only [List.filter_cons]
          rw [hpa]
          simp only [Bool.false_eq_true, if_false]
          exact htail

theorem mux_filter_nil {α : Type} (p : α → Bool) :
    ∀ (sched : List Nat) (ls : List (List α)) (es : List α),
      mux ls sched = some es →
      (∀ (j : Nat) (lj : List α), ls[j]? = some lj → ∀ a ∈ lj, p a = false) →
      es.filter p = [] := by
  intro sched
  induction sched with
  | nil =>
    intro ls es h hall
    unfold mux at h
    split at h
    · injection h with h
      subst h
      rfl
    · exact Option.noConfusion h
  | cons j rest ih =>
    intro ls es h hall
    unfold mux at h
    cases hj : ls[j]? with
    | none =>
      rw [hj] at h
      exact Option.noConfusion h
    | some lj =>
      cases lj with
      | nil =>
        rw [hj] at h
        exact Option.noConfusion h
      | cons a as =>
        rw [hj] at h
        rw [Option.map_eq_some'] at h
        obtain ⟨es2, hrec, hes⟩ := h
        subst hes
        have hjlen : j < ls.length := getElem?_some_lt hj
        have hpa : p a = false := hall j (a :: as) hj a (List.mem_cons_self a as)
        have hall2 : ∀ (k : Nat) (lk : List α), (ls.set j as)[k]? = some lk →
            ∀ b ∈ lk, p b = false := by
          intro k lk hlk b hb
          by_cases hkj : k = j
          · subst hkj
            have hset : (ls.set k as)[k]? = some as := by
              rw [List.getElem?_set]
              simp [hjlen]
            rw [hset] at hlk
            injection hlk with hlk
            subst hlk
            exact hall k (a :: as) hj b (List.mem_cons_of_mem a hb)
          · rw [List.getElem?_set_ne (fun hh => hkj hh.symm)] at hlk
            exact hall k lk hlk b hb
        simp only [List.filter_cons]
        rw [hpa]
        simp only [Bool.false_eq_true, if_false]
        exact ih (ls.set j as) es2 hrec hall2

theorem workerEvents_mem {t : Target} {r : AdapterRun} {a : StreamEvent}
    (ha : a ∈ workerEvents t r) : a.targetID = t.targetID ∧ a.event ≠ "done" := by
  unfold workerEvents at ha
  rcases List.mem_cons.mp ha with ha | ha
  · subst ha
    exact ⟨rfl, by show ("start" : String) ≠ "done"; decide⟩
  rcases List.mem_append.mp ha with ha | ha
  · rw [List.mem_map] at ha
    obtain ⟨c, -, hc⟩ := ha
    subst hc
    exact ⟨rfl, by show ("chunk" : String) ≠ "done"; decide⟩
  rcases List.mem_append.mp ha with ha | ha
  · cases hf : r.failure with
    | none =>
      rw [hf] at ha
      simp at ha
    | some e =>
      rw [hf] at ha
      rw [List.mem_singleton] at ha
      subst ha
      exact ⟨rfl, by show ("error" : String) ≠ "done"; decide⟩
  · rw [List.mem_singleton] at ha
    subst ha
    exact ⟨rfl, by show ("end" : String) ≠ "done"; decide⟩

theorem handlerEventLists_get {targets : List Target} (runs : Nat → AdapterRun) {i : Nat}
    {t : Target} (ht : targets[i]? = some t) :
    (handlerEventLists targets runs)[i]? =
      some (if t.provider ∈ registry then workerEvents t (runs i)
            else [errorEventOf t "unsupported provider"]) := by
  unfold handlerEventLists
  rw [List.getElem?_map, List.getElem?_enum, ht]
  rfl

theorem handlerEventLists_none {targets : List Target} {runs : Nat → AdapterRun} {i : Nat}
    (ht : targets[i]? = none) : (handlerEventLists targets runs)[i]? = none := by
  unfold handlerEventLists
  rw [List.getElem?_map, List.getElem?_enum, ht]
  rfl

theorem handlerEventLists_mem {targets : List Target} {runs : Nat → AdapterRun} {j : Nat}
    {lj : List StreamEvent} {a : StreamEvent}
    (hlj : (handlerEventLists targets runs)[j]? = some lj) (ha : a ∈ lj) :
    ∃ tj, targets[j]? = some tj ∧ a.targetID = tj.targetID ∧ a.event ≠ "done" := by
  cases htj : targets[j]? with
  | none =>
    rw [handlerEventLists_none htj] at hlj
    exact Option.noConfusion hlj
  | some tj =>
    rw [handlerEventLists_get runs htj] at hlj
    injection hlj with hlj
    subst hlj
    refine ⟨tj, rfl, ?_⟩
    by_cases hreg : tj.provider ∈ registry
    · rw [if_pos hreg] at ha
      exact workerEvents_mem ha
    · rw [if_neg hreg] at ha
      rw [List.mem_singleton] at ha
      subst ha
      exact ⟨rfl, by show ("error" : String) ≠ "done"; decide⟩

theorem targetID_ne_empty (t : Target) : t.targetID ≠ "" := by
  unfold Target.targetID
  intro h
  have hlen := congrArg String.length h
  rw [String.length_append, String.length_append] at hlen
  have h1 : (":" : String).length = 1 := rfl
  have h2 : ("" : String).length = 0 := rfl
  rw [h1, h2] at hlen
  omega

theorem nodup_tid_ne {targets : List Target} (hnodup : (targets.map Target.targetID).Nodup)
    {i j : Nat} {ti tj : Target} (hij : i ≠ j) (hi : targets[i]? = some ti)
    (hj : targets[j]? = some tj) : ti.targetID ≠ tj.targetID := by
  intro heq
  have hi2 : (targets.map Target.targetID)[i]? = some ti.targetID := by
    rw [List.getElem?_map, hi]
    rfl
  have hj2 : (targets.map Target.targetID)[j]? = some tj.targetID := by
    rw [List.getElem?_map, hj]
    rfl
  have hilt := getElem?_some_lt hi2
  have hjlt := getElem?_some_lt hj2
  have e1 : (targets.map Target.targetID)[i] = ti.targetID := by
    rw [List.getElem?_eq_getElem hilt] at hi2
    injection hi2
  have e2 : (targets.map Target.targetID)[j] = tj.targetID := by
    rw [List.getElem?_eq_getElem hjlt] at hj2
    injection hj2
  exact hij (hnodup.getElem_inj_iff.mp (by rw [e1, e2, heq]))

theorem appendRun_eventsFor {targets : List Target} {runs : Nat → AdapterRun}
    {es : List StreamEvent} (h : AppendRun targets runs es)
    (hnodup : (targets.map Target.targetID).Nodup)
    {i : Nat} {t : Target} (ht : targets[i]? = some t) :
    eventsFor es t.targetID =
      if t.provider ∈ registry then workerEvents t (runs i)
      else [errorEventOf t "unsupported provider"] := by
  obtain ⟨sched, body, hmux, hes⟩ := h
  subst hes
  unfold eventsFor
  rw [List.filter_append]
  have hdone : List.filter (fun e => decide (e.targetID = t.targetID)) [doneEvent] = [] := by
    have hfalse : (decide (doneEvent.targetID = t.targetID)) = false :=
      decide_eq_false fun hh => targetID_ne_empty t hh.symm
    rw [List.filter_cons, hfalse]
    rfl
  have hli := handlerEventLists_get runs ht
  have hothers : ∀ (j : Nat) (lj : List StreamEvent), j ≠ i →
      (handlerEventLists targets runs)[j]? = some lj →
      ∀ a ∈ lj, (decide (a.targetID = t.targetID)) = false := by
    intro j lj hj hlj a ha
    obtain ⟨tj, htj, hatj, -⟩ := handlerEventLists_mem hlj ha
    have hne : tj.targetID ≠ t.targetID := nodup_tid_ne hnodup hj htj ht
    rw [hatj]
    exact decide_eq_false hne
  have hmain := mux_filter_eq (fun e => decide (e.targetID = t.targetID)) sched _ body i _
    hmux hli hothers
  rw [hdone, List.append_nil, hmain]
  apply List.filter_eq_self.mpr
  intro a ha
  by_cases hreg : t.provider ∈ registry
  · rw [if_pos hreg] at ha
    rw [(workerEvents_mem ha).1]
    simp
  · rw [if_neg hreg] at ha
    rw [List.mem_singleton] at ha
    subst ha
    simp [errorEventOf]

theorem tailShapeOK_chunk_cons (xs : List String) :
    tailShapeOK ("chunk" :: xs) = tailShapeOK xs := by
  cases xs with
  | nil => rfl
  | cons y ys => rfl

theorem tailShapeOK_replicate (n : Nat) (l : List String) :
    tailShapeOK (List.replicate n "chunk" ++ l) = tailShapeOK l := by
  induction n with
  | zero => rfl
  | succ k ih =>
    rw [List.replicate_succ, List.cons_append, tailShapeOK_chunk_cons, ih]

theorem workerEvents_eventNames (t : Target) (r : AdapterRun) :
    (workerEvents t r).map (fun e => e.event) =
      "start" :: (List.replicate r.chunks.length "chunk" ++
        ((match r.failure with | some _ => ["error"] | none => []) ++ ["end"])) := by
  unfold workerEvents
  rw [List.map_cons, List.map_append, List.map_append]
  have h1 : (r.chunks.map (chunkEvent t)).map (fun e => e.event) =
      List.replicate r.chunks.length "chunk" := by
    rw [List.map_map]
    exact List.map_const' r.chunks "chunk"
  have h2 : ((match r.failure with
      | some e => [errorEventOf t e]
      | none => []) : List StreamEvent).map (fun e => e.event) =
      (match r.failure with | some _ => ["error"] | none => []) := by
    cases r.failure <;> rfl
  rw [h1, h2]
  rfl

theorem perTargetShape_workerEvents {es : List StreamEvent} {t : Target} {r : AdapterRun}
    (h : eventsFor es t.targetID = workerEvents t r) :
    perTargetShape es t.targetID = true := by
  unfold perTargetShape
  rw [h, workerEvents_eventNames]
  have e1 : (match ("start" :: (List.replicate r.chunks.length "chunk" ++
      ((match r.failure with | some _ => ["error"] | none => []) ++ ["end"]))) with
      | "start" :: rest => tailShapeOK rest
      | _ => false) = tailShapeOK (List.replicate r.chunks.length "chunk" ++
        ((match r.failure with | some _ => ["error"] | none => []) ++ ["end"])) := rfl
  rw [e1, tailShapeOK_replicate]
  cases r.failure <;> rfl

theorem appendRun_done {targets : List Target} {runs : Nat → AdapterRun}
    {es : List StreamEvent} (h : AppendRun targets runs es) :
    es.filter (fun e => e.event = "done") = [doneEvent] ∧ es.getLast? = some doneEvent := by
  obtain ⟨sched, body, hmux, hes⟩ := h
  subst hes
  constructor
  · rw [List.filter_append]
    have hbody : body.filter (fun e => decide (e.event = "done")) = [] := by
      apply mux_filter_nil _ sched _ _ hmux
      intro j lj hlj a ha
      obtain ⟨tj, -, -, hnd⟩ := handlerEventLists_mem hlj ha
      exact decide_eq_false hnd
    rw [hbody]
    rfl
  · rw [List.getLast?_concat]

theorem workerEvents_chunkFilter (t : Target) (r : AdapterRun) :
    ((workerEvents t r).filter fun e =>
        e.targetID = t.targetID ∧ e.event = "chunk").map (fun e => e.content) = r.chunks := by
  unfold workerEvents
  rw [List.filter_cons]
  have hstart : (decide ((startEvent t).targetID = t.targetID ∧ (startEvent t).event = "chunk"))
      = false := decide_eq_false fun hh => by
    have : ("start" : String) = "chunk" := hh.2
    exact absurd this (by decide)
  rw [hstart]
  simp only [Bool.false_eq_true, if_false]
  rw [List.filter_append, List.filter_append]
  have h1 : (r.chunks.map (chunkEvent t)).filter
      (fun e => decide (e.targetID = t.targetID ∧ e.event = "chunk")) =
      r.chunks.map (chunkEvent t) := by
    apply List.filter_eq_self.mpr
    intro a ha
    rw [List.mem_map] at ha
    obtain ⟨c, -, hc⟩ := ha
    subst hc
    exact decide_eq_true ⟨rfl, rfl⟩
  have h2 : ((match r.failure with
      | some e => [errorEventOf t e]
      | none => []) : List StreamEvent).filter
      (fun e => decide (e.targetID = t.targetID ∧ e.event = "chunk")) = [] := by
    cases r.failure with
    | none => rfl
    | some e =>
      show List.filter _ [errorEventOf t e] = []
      rw [List.filter_cons]
      have : (decide ((errorEventOf t e).targetID = t.targetID ∧
          (errorEventOf t e).event = "chunk")) = false := decide_eq_false fun hh => by
        have : ("error" : String) = "chunk" := hh.2
        exact absurd this (by decide)
      rw [this]
      rfl
  have h3 : ([endEvent t] : List StreamEvent).filter
      (fun e => decide (e.targetID = t.targetID ∧ e.event = "chunk")) = [] := by
    rw [List.filter_cons]
    have : (decide ((endEvent t).targetID = t.targetID ∧ (endEvent t).event = "chunk"))
        = false := decide_eq_false fun hh => by
      have : ("end" : String) = "chunk" := hh.2
      exact absurd this (by decide)
    rw [this]
    rfl
  rw [h1, h2, h3, List.append_nil, List.append_nil, List.map_map]
  show r.chunks.map (fun c => c) = r.chunks
  exact List.map_id' r.chunks

theorem appendRun_accumContent {targets : List Target} {runs : Nat → AdapterRun}
    {es : List StreamEvent} (h : AppendRun targets runs es)
    (hnodup : (targets.map Target.targetID).Nodup)
    {i : Nat} {t : Target} (ht : targets[i]? = some t) (hreg : t.provider ∈ registry) :
    accumContent es t.targetID = String.join (runs i).chunks := by
  obtain ⟨sched, body, hmux, hes⟩ := h
  subst hes
  unfold accumContent
  rw [List.filter_append]
  have hdone : List.filter
      (fun e => decide (e.targetID = t.targetID ∧ e.event = "chunk")) [doneEvent] = [] := by
    rw [List.filter_cons]
    have hfalse : (decide (doneEvent.targetID = t.targetID ∧ doneEvent.event = "chunk"))
        = false := decide_eq_false fun hh => by
      have : ("done" : String) = "chunk" := hh.2
      exact absurd this (by decide)
    rw [hfalse]
    rfl
  have hli := handlerEventLists_get runs ht
  rw [if_pos hreg] at hli
  have hothers : ∀ (j : Nat) (lj : List StreamEvent), j ≠ i →
      (handlerEventLists targets runs)[j]? = some lj →
      ∀ a ∈ lj, (decide (a.targetID = t.targetID ∧ a.event = "chunk")) = false := by
    intro j lj hj hlj a ha
    obtain ⟨tj, htj, hatj, -⟩ := handlerEventLists_mem hlj ha
    have hne : tj.targetID ≠ t.targetID := nodup_tid_ne hnodup hj htj ht
    exact decide_eq_false fun hh => hne (by rw [← hatj]; exact hh.1)
  have hmain := mux_filter_eq
    (fun e => decide (e.targetID = t.targetID ∧ e.event = "chunk")) sched _ body i _
    hmux hli hothers
  rw [hdone, List.append_nil, hmain]
  exact congrArg String.join (workerEvents_chunkFilter t (runs i))

/-- C1 (amended): in every `/api/chat/stream` run over targets with pairwise
distinct targetIds, each target whose provider is in the adapter registry
contributes exactly one `start`, its chunks, at most one `error`, then one
final `end` (nothing after it); a target with an unregistered provider
instead contributes exactly one bare `error` event with no `start` or `end`;
and exactly one `done` event is emitted, as the last event of the run. -/
theorem streamEventOrder_spec :
    ∀ targets runs es, AppendRun targets runs es →
      (targets.map Target.targetID).Nodup →
      (∀ (i : Nat) (t : Target), targets[i]? = some t → t.provider ∈ registry →
        perTargetShape es t.targetID = true) ∧
      (∀ (i : Nat) (t : Target), targets[i]? = some t → t.provider ∉ registry →
        eventsFor es t.targetID = [errorEventOf t "unsupported provider"]) ∧
      es.filter (fun e => e.event = "done") = [doneEvent] ∧
      es.getLast? = some doneEvent := by
  intro targets runs es h hnodup
  refine ⟨?_, ?_, (appendRun_done h).1, (appendRun_done h).2⟩
  · intro i t ht hreg
    have hev := appendRun_eventsFor h hnodup ht
    rw [if_pos hreg] at hev
    exact perTargetShape_workerEvents hev
  · intro i t ht hreg
    have hev := appendRun_eventsFor h hnodup ht
    rw [if_neg hreg] at hev
    exact hev

/-- Counterexample to C1 as stated: a run whose single target names an
unregistered provider emits one `error` event with no `start` and no `end`,
so that target's event sequence does not have the claimed
`start chunk* error? end` shape. -/
theorem streamEventOrder_counterexample :
    AppendRun [fooTarget] (fun _ => okRun)
      [errorEventOf fooTarget "unsupported provider", doneEvent] ∧
    perTargetShape [errorEventOf fooTarget "unsupported provider", doneEvent]
      fooTarget.targetID = false :=
  ⟨⟨[0], [errorEventOf fooTarget "unsupported provider"], by decide, by decide⟩, by decide⟩

/-- Witness for C1 (amended) on a concrete two-target run. -/
theorem streamEventOrder_spec_witness :
    (∀ (i : Nat) (t : Target), ([ollamaTarget, fooTarget] : List Target)[i]? = some t →
      t.provider ∈ registry →
      perTargetShape (mixedRunBody ++ [doneEvent]) t.targetID = true) ∧
    (∀ (i : Nat) (t : Target), ([ollamaTarget, fooTarget] : List Target)[i]? = some t →
      t.provider ∉ registry →
      eventsFor (mixedRunBody ++ [doneEvent]) t.targetID =
        [errorEventOf t "unsupported provider"]) ∧
    (mixedRunBody ++ [doneEvent]).filter (fun e => e.event = "done") = [doneEvent] ∧
    (mixedRunBody ++ [doneEvent]).getLast? = some doneEvent :=
  streamEventOrder_spec [ollamaTarget, fooTarget] (fun _ => okRun)
    (mixedRunBody ++ [doneEvent])
    ⟨[0, 1, 0, 0, 0], mixedRunBody, by decide, rfl⟩ (by decide)

/-- C3 (amended): for every registered target of an append-mode run (with
pairwise distinct targetIds), the committed content is exactly the
concatenation of that target's own chunks — kept when non-blank, and no
message at all when blank.  In particular a failed target with no partial
content commits nothing (not the error string), and a target's committed
result is a function of its own adapter run only, unaffected by any sibling
failure. -/
theorem streamCommit_spec :
    ∀ targets runs es, AppendRun targets runs es →
      (targets.map Target.targetID).Nodup →
      ∀ (i : Nat) (t : Target), targets[i]? = some t → t.provider ∈ registry →
        committedContent es t.targetID =
          if trimSpace (String.join (runs i).chunks) = "" then none
          else some (String.join (runs i).chunks) := by
  intro targets runs es h hnodup i t ht hreg
  unfold committedContent
  rw [appendRun_accumContent h hnodup ht hreg]

/-- Counterexample to C3 as stated: a target that fails with error `boom`
before producing any chunk has no committed content at all — the literal
error string is not committed. -/
theorem streamCommit_counterexample :
    AppendRun [ollamaTarget] (fun _ => failedRun) (failedRunBody ++ [doneEvent]) ∧
    failedRun.failure = some "boom" ∧
    failedRun.chunks = [] ∧
    committedContent (failedRunBody ++ [doneEvent]) ollamaTarget.targetID = none :=
  ⟨⟨[0, 0, 0], failedRunBody, by decide, rfl⟩, rfl, rfl, by decide⟩

/-- Witness for C3 (amended) at the failed single-target run. -/
theorem streamCommit_spec_witness :
    committedContent (failedRunBody ++ [doneEvent]) ollamaTarget.targetID =
      (if trimSpace (String.join failedRun.chunks) = "" then none
       else some (String.join failedRun.chunks)) :=
  streamCommit_spec [ollamaTarget] (fun _ => failedRun) (failedRunBody ++ [doneEvent])
    ⟨[0, 0, 0], failedRunBody, by decide, rfl⟩ (by decide) 0 ollamaTarget (by rfl) (by decide)

/-- Witness for C8: the known-maximum conjunct at a concrete item. -/
theorem contextBudget_spec_witness :
    (resolveContextItem "ollama" "l3" (.ok 1000) [] "hello").remainingTokens =
      some ((1000 : Int) -
        ((resolveContextItem "ollama" "l3" (.ok 1000) [] "hello").estimatedTokens : Int)) ∧
    (resolveContextItem "ollama" "l3" (.ok 1000) [] "hello").usedPercent =
      some (((200 * (resolveContextItem "ollama" "l3" (.ok 1000) [] "hello").estimatedTokens
        + 1000) / (2 * 1000) : Nat) : Int) :=
  contextBudget_spec.2.2 "ollama" "l3" 1000 [] "hello" (by decide)

end LlmWorkspace
